import Mathlib

/-!
Verification development for the recli marker-protocol parser, command log and
session manager.  Bytes are modelled as `Nat` (values 0..255), Rust `String`s as
lists of Unicode scalar values (`List Nat`), machine integers as `Int`/`Nat`
with explicit range checks where the code checks them, and `Instant` as a `Nat`
millisecond clock passed explicitly.  Every definition is translated from the
Rust source (src.bak/command_detector.rs, src.bak/command_log.rs,
src/session.rs); ambient inputs (current time, process cwd, process id, the
file system, process liveness) are explicit parameters.
-/

/-! ## Byte and string utilities mirroring the Rust standard library -/

/-- ASCII scalar values of a Lean string literal (used for concrete inputs). -/
def strBytes (s : String) : List Nat := s.data.map Char.toNat

/-- Unicode `White_Space` code points, as used by Rust `str::trim`
(`char::is_whitespace`). -/
def isRustWs (c : Nat) : Bool :=
  c == 0x09 || c == 0x0A || c == 0x0B || c == 0x0C || c == 0x0D || c == 0x20 ||
  c == 0x85 || c == 0xA0 || c == 0x1680 || (0x2000 ≤ c && c ≤ 0x200A) ||
  c == 0x2028 || c == 0x2029 || c == 0x202F || c == 0x205F || c == 0x3000

/-- Rust `str::trim`: drop whitespace from both ends. -/
def trimChars (s : List Nat) : List Nat :=
  ((s.dropWhile isRustWs).reverse.dropWhile isRustWs).reverse

/-- Decimal digit value of an ASCII code point. -/
def digitVal (c : Nat) : Option Nat :=
  if 0x30 ≤ c ∧ c ≤ 0x39 then some (c - 0x30) else none

/-- Parse a nonempty all-digit string to a `Nat` (`none` otherwise). -/
def parseDigits (s : List Nat) : Option Nat :=
  match s with
  | [] => none
  | _ :: _ =>
    s.foldl (fun acc c =>
      match acc, digitVal c with
      | some a, some d => some (a * 10 + d)
      | _, _ => none) (some 0)

/-- Rust `i32::from_str`: optional sign, decimal digits, range-checked. -/
def parseI32 (s : List Nat) : Option Int :=
  match s with
  | 0x2B :: rest =>
    (parseDigits rest).bind fun n =>
      if n ≤ 2147483647 then some (n : Int) else none
  | 0x2D :: rest =>
    (parseDigits rest).bind fun n =>
      if n ≤ 2147483648 then some (-(n : Int)) else none
  | _ =>
    (parseDigits s).bind fun n =>
      if n ≤ 2147483647 then some (n : Int) else none

/-- Rust `u32::from_str`: optional `+`, decimal digits, range-checked. -/
def parseU32 (s : List Nat) : Option Nat :=
  match s with
  | 0x2B :: rest =>
    (parseDigits rest).bind fun n =>
      if n ≤ 4294967295 then some n else none
  | _ =>
    (parseDigits s).bind fun n =>
      if n ≤ 4294967295 then some n else none

/-- Rust `str::split(',')`: always returns at least one (possibly empty) part. -/
def splitComma : List Nat → List (List Nat)
  | [] => [[]]
  | c :: rest =>
    if c == 0x2C then [] :: splitComma rest
    else
      match splitComma rest with
      | [] => [[c]]
      | h :: t => (c :: h) :: t

/-! ## Lossy UTF-8 decoding (Rust `String::from_utf8_lossy`)

The decoder follows the WHATWG "maximal subpart" policy used by the Rust
standard library: each invalid maximal subsequence is replaced by one
U+FFFD.  The result is the list of Unicode scalar values. -/

/-- U+FFFD, the replacement character's scalar value. -/
def replChar : Nat := 0xFFFD

/-- Is `b` a UTF-8 continuation byte (`0x80..0xBF`)? -/
def isCont (b : Nat) : Bool := 0x80 ≤ b && b ≤ 0xBF

/-- Valid range for the byte immediately after a multi-byte lead, which is
narrowed for leads `0xE0`, `0xED`, `0xF0`, `0xF4` to exclude overlong forms,
surrogates and values above U+10FFFF. -/
def cont1Ok (b b1 : Nat) : Bool :=
  if b == 0xE0 then 0xA0 ≤ b1 && b1 ≤ 0xBF
  else if b == 0xED then 0x80 ≤ b1 && b1 ≤ 0x9F
  else if b == 0xF0 then 0x90 ≤ b1 && b1 ≤ 0xBF
  else if b == 0xF4 then 0x80 ≤ b1 && b1 ≤ 0x8F
  else isCont b1

/-- Decode one scalar: given the first byte and the remaining bytes, return the
decoded (or replacement) scalar and the bytes left to decode. -/
def utf8Step (b : Nat) (rest : List Nat) : Nat × List Nat :=
  if b < 0x80 then (b, rest)
  else if 0xC2 ≤ b ∧ b ≤ 0xDF then
    match rest with
    | [] => (replChar, [])
    | b1 :: r1 =>
      if isCont b1 then ((b - 0xC0) * 0x40 + (b1 - 0x80), r1)
      else (replChar, b1 :: r1)
  else if 0xE0 ≤ b ∧ b ≤ 0xEF then
    match rest with
    | [] => (replChar, [])
    | b1 :: r1 =>
      if cont1Ok b b1 then
        match r1 with
        | [] => (replChar, [])
        | b2 :: r2 =>
          if isCont b2 then
            ((b - 0xE0) * 0x1000 + (b1 - 0x80) * 0x40 + (b2 - 0x80), r2)
          else (replChar, b2 :: r2)
      else (replChar, b1 :: r1)
  else if 0xF0 ≤ b ∧ b ≤ 0xF4 then
    match rest with
    | [] => (replChar, [])
    | b1 :: r1 =>
      if cont1Ok b b1 then
        match r1 with
        | [] => (replChar, [])
        | b2 :: r2 =>
          if isCont b2 then
            match r2 with
            | [] => (replChar, [])
            | b3 :: r3 =>
              if isCont b3 then
                ((b - 0xF0) * 0x40000 + (b1 - 0x80) * 0x1000 +
                  (b2 - 0x80) * 0x40 + (b3 - 0x80), r3)
              else (replChar, b3 :: r3)
          else (replChar, b2 :: r2)
      else (replChar, b1 :: r1)
  else (replChar, rest)

theorem utf8Step_len (b : Nat) (rest : List Nat) :
    (utf8Step b rest).2.length ≤ rest.length := by
  unfold utf8Step
  repeat' split
  all_goals simp_all
  all_goals omega

/-- Lossy UTF-8 decode to Unicode scalar values. -/
def utf8DecodeLossy (l : List Nat) : List Nat :=
  match l with
  | [] => []
  | b :: rest => (utf8Step b rest).1 :: utf8DecodeLossy (utf8Step b rest).2
termination_by l.length
decreasing_by
  simp_wf
  exact Nat.lt_succ_of_le (utf8Step_len _ _)

/-- UTF-8 byte length of one Unicode scalar value (Rust `char::len_utf8`). -/
def scalarLen (c : Nat) : Nat :=
  if c < 0x80 then 1 else if c < 0x800 then 2 else if c < 0x10000 then 3 else 4

/-- Rust `String::len`: total UTF-8 byte length of a scalar-value string. -/
def utf8Len (s : List Nat) : Nat := (s.map scalarLen).sum

/-! ## Marker-protocol parser (src.bak/command_detector.rs)

`Instant` is a `Nat` millisecond clock: each `process_output` call receives the
current time `now`, and `t.elapsed() >= 50ms` becomes `50 ≤ now - t`.  The
`std::env::current_dir()`-or-`"/unknown"` fallback is the explicit parameter
`procCwd`. -/

/-- `LogEvent` from src.bak/session.rs as used by the detector: command and
path strings are scalar-value strings, output payloads are raw bytes. -/
inductive LogEvent where
  | CommandStart (cmd : List Nat) (cwd : List Nat)
  | Output (data : List Nat)
  | CommandEnd (exit_code : Int) (pipestatus : Option (List Int)) (cwd : List Nat)
  deriving DecidableEq, Repr

/-- Detector state (`partialMarker` is the source's `partial_marker` field). -/
structure DState where
  partialMarker : Option (List Nat)
  in_command : Bool
  skip_until_eol : Bool
  skip_started_at : Option Nat
  pending_exit_code : Option Int
  pending_pipestatus : Option (List Int)
  pending_pwd : Option (List Nat)
  last_pwd : Option (List Nat)
  deriving DecidableEq, Repr

/-- `CommandDetector::new`. -/
def DState.init : DState :=
  ⟨none, false, false, none, none, none, none, none⟩

/-- ASCII bytes of `"RECLI_START:"`. -/
def startTag : List Nat := [82, 69, 67, 76, 73, 95, 83, 84, 65, 82, 84, 58]

/-- ASCII bytes of `"RECLI_END:"`. -/
def endTag : List Nat := [82, 69, 67, 76, 73, 95, 69, 78, 68, 58]

/-- ASCII bytes of `"RECLI_PWD:"`. -/
def pwdTag : List Nat := [82, 69, 67, 76, 73, 95, 80, 87, 68, 58]

/-- ASCII bytes of `"RECLI_PIPE:"`. -/
def pipeTag : List Nat := [82, 69, 67, 76, 73, 95, 80, 73, 80, 69, 58]

/-- Rust `str::strip_prefix` on scalar strings. -/
def stripTag : List Nat → List Nat → Option (List Nat)
  | [], s => some s
  | _ :: _, [] => none
  | t :: ts, c :: cs => if t == c then stripTag ts cs else none

/-- `s.strip_prefix('[').and_then(|x| x.strip_suffix(']'))`. -/
def stripBracket (s : List Nat) : Option (List Nat) :=
  match s with
  | 0x5B :: rest =>
    if rest.getLast? = some 0x5D then some rest.dropLast else none
  | _ => none

/-- The `RECLI_PIPE` element loop: parse each comma-separated part, keeping
only the elements that parse as `i32`. -/
def parsePipeList (inner : List Nat) : List Int :=
  (splitComma inner).filterMap (fun part => parseI32 (trimChars part))

/-- `CommandDetector::try_finish_when_ready`. -/
def tryFinishWhenReady (s : DState) : DState × List LogEvent :=
  if s.in_command then
    match s.pending_exit_code, s.pending_pwd with
    | some ec, some pwd =>
      ({ s with in_command := false, pending_exit_code := none,
                pending_pipestatus := none, pending_pwd := none },
       [LogEvent.CommandEnd ec s.pending_pipestatus pwd])
    | _, _ => (s, [])
  else (s, [])

/-- `CommandDetector::start_command`: synthesize an end for a still-open
command, reset state, start the echo-skip window, emit `CommandStart`. -/
def startCommand (now : Nat) (procCwd : List Nat) (s : DState) (cmd : List Nat) :
    DState × List LogEvent :=
  let cwd := s.last_pwd.getD procCwd
  let endEvs := if s.in_command then [LogEvent.CommandEnd 0 none cwd] else []
  ({ s with in_command := true, skip_until_eol := true, skip_started_at := some now,
            pending_exit_code := none, pending_pipestatus := none,
            pending_pwd := none },
   endEvs ++ [LogEvent.CommandStart cmd cwd])

/-- `CommandDetector::handle_marker` on the lossily-decoded marker payload. -/
def handleMarker (now : Nat) (procCwd : List Nat) (s : DState) (marker : List Nat) :
    DState × List LogEvent :=
  match stripTag startTag marker with
  | some rest => startCommand now procCwd s rest
  | none =>
  match stripTag endTag marker with
  | some rest =>
    tryFinishWhenReady { s with pending_exit_code := parseI32 (trimChars rest) }
  | none =>
  match stripTag pwdTag marker with
  | some rest =>
    tryFinishWhenReady { s with pending_pwd := some rest, last_pwd := some rest }
  | none =>
  match stripTag pipeTag marker with
  | some rest =>
    match stripBracket (trimChars rest) with
    | some inner =>
      let v := parsePipeList inner
      if v ≠ [] then tryFinishWhenReady { s with pending_pipestatus := some v }
      else (s, [])
    | none => (s, [])
  | none => (s, [])

/-- The terminator search of `process_output`: split a buffer at the first
`\n`/`\r`, returning the bytes before it and the bytes after it. -/
def splitTerm : List Nat → Option (List Nat × List Nat)
  | [] => none
  | b :: rest =>
    if b == 10 || b == 13 then some ([], rest)
    else
      match splitTerm rest with
      | some (p, r) => some (b :: p, r)
      | none => none

theorem splitTerm_some_length {xs p r : List Nat}
    (h : splitTerm xs = some (p, r)) : p.length + 1 + r.length = xs.length := by
  induction xs generalizing p r with
  | nil => simp [splitTerm] at h
  | cons b rest ih =>
    simp only [splitTerm] at h
    split at h
    · cases h
      simp only [List.length_nil, List.length_cons]
      omega
    · cases hs : splitTerm rest with
      | none => rw [hs] at h; cases h
      | some pr =>
        rw [hs] at h
        cases pr with
        | mk p' r' =>
          cases h
          have := ih hs
          simp
          omega

/-- The scanning loop of `CommandDetector::process_output`: strip markers,
apply the echo-skip window, pass other bytes through.  Returns the updated
state, the display bytes and the marker-derived events in emission order. -/
def scan (now : Nat) (procCwd : List Nat) (s : DState) (buf : List Nat) :
    DState × List Nat × List LogEvent :=
  match buf with
  | [] => (s, [], [])
  | b :: rest =>
    if b = 0x1E then
      match hsp : splitTerm rest with
      | none => ({ s with partialMarker := some (b :: rest) }, [], [])
      | some (payload, rest') =>
        let se := handleMarker now procCwd s (utf8DecodeLossy payload)
        let r := scan now procCwd se.1 rest'
        (r.1, r.2.1, se.2 ++ r.2.2)
    else
      if s.in_command ∧ s.skip_until_eol then
        let timedOut : Bool :=
          match s.skip_started_at with
          | some t => decide (50 ≤ now - t)
          | none => false
        if b = 10 ∨ b = 13 ∨ timedOut = true then
          let s' := { s with skip_until_eol := false, skip_started_at := none }
          let r := scan now procCwd s' rest
          (r.1, b :: r.2.1, r.2.2)
        else scan now procCwd s rest
      else
        let r := scan now procCwd s rest
        (r.1, b :: r.2.1, r.2.2)
termination_by buf.length
decreasing_by
  all_goals simp_wf
  · have := splitTerm_some_length hsp
    omega

/-- `CommandDetector::process_output`: stitch the carried-over partial marker,
scan, and emit one `Output` event when a command is open at the end of the
call and the call produced display bytes. -/
def processOutput (now : Nat) (procCwd : List Nat) (s : DState) (data : List Nat) :
    DState × List Nat × List LogEvent :=
  let buf := (s.partialMarker.getD []) ++ data
  let r := scan now procCwd { s with partialMarker := none } buf
  let evs :=
    if r.1.in_command ∧ r.2.1 ≠ [] then r.2.2 ++ [LogEvent.Output r.2.1]
    else r.2.2
  (r.1, r.2.1, evs)

/-- `CommandDetector::finish`. -/
def DState.finish (procCwd : List Nat) (s : DState) : DState × List LogEvent :=
  let s0 := { s with partialMarker := none }
  if s0.in_command then
    ({ s0 with in_command := false, pending_exit_code := none, pending_pwd := none },
     [LogEvent.CommandEnd 0 none (s0.last_pwd.getD procCwd)])
  else (s0, [])

/-- A sequence of `process_output` calls, with concatenated display bytes and
cumulative events. -/
def runChunks (now : Nat) (procCwd : List Nat) (s : DState) :
    List (List Nat) → DState × List Nat × List LogEvent
  | [] => (s, [], [])
  | c :: cs =>
    let r1 := processOutput now procCwd s c
    let r2 := runChunks now procCwd r1.1 cs
    (r2.1, r1.2.1 ++ r2.2.1, r1.2.2 ++ r2.2.2)

/-- A sequence of `handle_marker` calls, with cumulative events. -/
def runMarkers (now : Nat) (procCwd : List Nat) (s : DState) :
    List (List Nat) → DState × List LogEvent
  | [] => (s, [])
  | m :: ms =>
    let r1 := handleMarker now procCwd s m
    let r2 := runMarkers now procCwd r1.1 ms
    (r2.1, r1.2 ++ r2.2)

/-! ## Command log (src.bak/command_log.rs)

File contents are modelled in-state: the open spool file is its path together
with the bytes written so far.  `Utc::now().to_rfc3339()` and
`Instant::now()` are explicit parameters of the operations that read them.
File creation and rename are modelled as succeeding. -/

/-- Persisted `CommandEntry`. -/
structure CommandEntry where
  cmd : List Nat
  cwd : List Nat
  timestamp : List Nat
  exit_code : Int
  output_preview : List Nat
  output_path : Option (List Nat)
  pipestatus : Option (List Int)
  duration_ms : Option Nat
  deriving DecidableEq, Repr

/-- `CommandLog`: append-only history plus the mutable current slot. -/
structure CommandLog where
  entries : List CommandEntry
  current_cmd : List Nat
  current_preview : List Nat
  current_start_time : Option Nat
  current_out_file : Option (List Nat × List Nat)
  deriving DecidableEq, Repr

/-- `CommandLog::new`. -/
def CommandLog.new : CommandLog := ⟨[], [], [], none, none⟩

/-- `CommandLog::start_command` (spool file creation succeeds). -/
def CommandLog.startCommand (l : CommandLog) (cmd_string _cwd log_dir : List Nat)
    (now : Nat) : CommandLog :=
  { l with current_cmd := cmd_string
           current_preview := []
           current_start_time := some now
           current_out_file := some (log_dir ++ strBytes "/current.out", []) }

/-- `CommandLog::append_output_bytes`: write to the spool file, then extend
the preview only while its byte length is under 8 KiB, taking at most
`remaining` raw bytes and decoding them lossily. -/
def CommandLog.appendOutputBytes (l : CommandLog) (bytes : List Nat) : CommandLog :=
  let l1 :=
    match l.current_out_file with
    | some (p, content) => { l with current_out_file := some (p, content ++ bytes) }
    | none => l
  if utf8Len l1.current_preview < 8 * 1024 then
    let remaining := 8 * 1024 - utf8Len l1.current_preview
    let snippet := utf8DecodeLossy (bytes.take (min bytes.length remaining))
    { l1 with current_preview := l1.current_preview ++ snippet }
  else l1

/-- `CommandLog::finish_command` (`timestamp` is the RFC3339 string from
`Utc::now()`, `now` the current `Instant`; the spool rename succeeds). -/
def CommandLog.finishCommand (l : CommandLog) (exit_code : Int)
    (pipestatus : Option (List Int)) (cwd log_dir : List Nat)
    (timestamp : List Nat) (now : Nat) : CommandLog :=
  if l.current_cmd = [] then l
  else
    let duration_ms := l.current_start_time.map (fun start => now - start)
    let output_path :=
      match l.current_out_file with
      | some _ =>
        some (timestamp.map (fun c => if c = 0x3A then 0x2D else c) ++
          strBytes "-" ++ strBytes (toString l.entries.length) ++ strBytes ".out")
      | none => none
    let entry : CommandEntry :=
      ⟨l.current_cmd, cwd, timestamp, exit_code, l.current_preview, output_path,
        pipestatus, duration_ms⟩
    { l with entries := l.entries ++ [entry]
             current_cmd := []
             current_preview := []
             current_start_time := none
             current_out_file := none }

/-- `CommandLog::get_recent`. -/
def CommandLog.getRecent (l : CommandLog) (count : Nat) : List CommandEntry :=
  l.entries.drop (if l.entries.length > count then l.entries.length - count else 0)

/-- One consumer-side mutation of the log, with its ambient inputs. -/
inductive LogOp where
  | start (cmd cwd log_dir : List Nat) (now : Nat)
  | append (bytes : List Nat)
  | finish (exit_code : Int) (pipestatus : Option (List Int))
      (cwd log_dir timestamp : List Nat) (now : Nat)

/-- Run a sequence of log operations. -/
def runLogOps : CommandLog → List LogOp → CommandLog
  | l, [] => l
  | l, LogOp.start cmd cwd dir now :: ops =>
    runLogOps (l.startCommand cmd cwd dir now) ops
  | l, LogOp.append bytes :: ops => runLogOps (l.appendOutputBytes bytes) ops
  | l, LogOp.finish ec ps cwd dir ts now :: ops =>
    runLogOps (l.finishCommand ec ps cwd dir ts now) ops

/-! ## Session manager (src/session.rs)

The ambient world — the pid-marker file and process liveness — is explicit:
`pidFile` is the content of `<home>/.recli/session.pid` when that file exists,
`alive` is the liveness check behind `libc::kill(pid, 0)`.  Directory creation
and file writes are modelled as succeeding, so the only error `start_session`
can return is the session-already-active one. -/

/-- The ambient state `SessionManager` interacts with. -/
structure World where
  pidFile : Option (List Nat)
  alive : Nat → Bool
  dirs : List (List Nat)

/-- `SessionConfig`. -/
structure SessionConfig where
  session_id : List Nat
  log_dir : List Nat
  started_at : List Nat
  shell : List Nat
  deriving DecidableEq, Repr

/-- `RecliError` (src.bak/error.rs); only the variants `start_session` can
produce in the model. -/
inductive RecliError where
  | Session (msg : List Nat)
  deriving DecidableEq, Repr

/-- In-process `SessionManager` state. -/
structure SessionManager where
  config : Option SessionConfig
  senderInstalled : Bool

/-- `SessionManager::new`. -/
def SessionManager.new : SessionManager := ⟨none, false⟩

/-- `SessionManager::is_session_active`: the pid file exists, parses as a
`u32` after trimming, and that process is alive. -/
def isSessionActive (w : World) : Bool :=
  match w.pidFile with
  | none => false
  | some content =>
    match parseU32 (trimChars content) with
    | some pid => w.alive pid
    | none => false

/-- ASCII decimal digits of a `Nat`. -/
def natToDec (n : Nat) : List Nat := (toString n).data.map Char.toNat

/-- `SessionManager::start_session`: reject when a session is active;
otherwise allocate the session id and log directory, write the pid marker and
install the log-event consumer.  `selfPid` is `std::process::id()`, `nowId`
and `nowTs` the two formatted timestamps, `home` the home directory. -/
def startSession (selfPid : Nat) (nowId nowTs home : List Nat)
    (sm : SessionManager) (w : World) (shell : List Nat) :
    Except RecliError SessionConfig × SessionManager × World :=
  if isSessionActive w then
    (Except.error (RecliError.Session (strBytes "session already active")), sm, w)
  else
    let session_id := strBytes "recli_session_" ++ nowId
    let log_dir := home ++ strBytes "/.recli/logs/" ++ session_id
    let cfg : SessionConfig := ⟨session_id, log_dir, nowTs, shell⟩
    let w' : World :=
      { w with dirs := w.dirs ++ [log_dir], pidFile := some (natToDec selfPid) }
    (Except.ok cfg, { config := some cfg, senderInstalled := true }, w')

/-! ## Derived definitions for the proofs: fuel twins, traces, event and
history accumulators, invariants, and a concrete world -/

def utf8DecodeFuel : Nat → List Nat → List Nat
  | 0, _ => []
  | _ + 1, [] => []
  | fuel + 1, b :: rest => (utf8Step b rest).1 :: utf8DecodeFuel fuel (utf8Step b rest).2

def scanFuel (now : Nat) (pc : List Nat) :
    Nat → DState → List Nat → DState × List Nat × List LogEvent
  | 0, s, _ => (s, [], [])
  | _ + 1, s, [] => (s, [], [])
  | fuel + 1, s, b :: rest =>
    if b = 30 then
      match splitTerm rest with
      | none => ({ s with partialMarker := some (b :: rest) }, [], [])
      | some (payload, rest') =>
        let se := handleMarker now pc s (utf8DecodeFuel payload.length payload)
        let r := scanFuel now pc fuel se.1 rest'
        (r.1, r.2.1, se.2 ++ r.2.2)
    else
      if s.in_command ∧ s.skip_until_eol then
        let timedOut : Bool :=
          match s.skip_started_at with
          | some t => decide (50 ≤ now - t)
          | none => false
        if b = 10 ∨ b = 13 ∨ timedOut = true then
          let s' := { s with skip_until_eol := false, skip_started_at := none }
          let r := scanFuel now pc fuel s' rest
          (r.1, b :: r.2.1, r.2.2)
        else scanFuel now pc fuel s rest
      else
        let r := scanFuel now pc fuel s rest
        (r.1, b :: r.2.1, r.2.2)

/-- Instrumented scan: each display byte paired with the `in_command` flag at
the moment it is pushed (fuel-structural, like `scanFuel`). -/
def scanTrace (now : Nat) (pc : List Nat) :
    Nat → DState → List Nat → List (Nat × Bool)
  | 0, _, _ => []
  | _ + 1, _, [] => []
  | fuel + 1, s, b :: rest =>
    if b = 30 then
      match splitTerm rest with
      | none => []
      | some (payload, rest') =>
        scanTrace now pc fuel
          (handleMarker now pc s (utf8DecodeFuel payload.length payload)).1 rest'
    else
      if s.in_command ∧ s.skip_until_eol then
        let timedOut : Bool :=
          match s.skip_started_at with
          | some t => decide (50 ≤ now - t)
          | none => false
        if b = 10 ∨ b = 13 ∨ timedOut = true then
          (b, s.in_command) ::
            scanTrace now pc fuel
              { s with skip_until_eol := false, skip_started_at := none } rest
        else scanTrace now pc fuel s rest
      else (b, s.in_command) :: scanTrace now pc fuel s rest

/-- Classification of one scanned byte: part of a marker frame (`0x1E`
through its terminator), dropped by the echo-skip window, pushed to the
display, or stashed whole as the carryover tail of an unterminated marker. -/
inductive ByteClass where
  | marker : ByteClass
  | skipped : ByteClass
  | shown : ByteClass
  | stashed : ByteClass
  deriving DecidableEq, Repr

/-- Total classification of the scanned buffer, branch for branch the same
walk as `scan`: every input byte is tagged exactly once, in order. -/
def scanClass (now : Nat) (pc : List Nat) :
    Nat → DState → List Nat → List (Nat × ByteClass)
  | 0, _, _ => []
  | _ + 1, _, [] => []
  | fuel + 1, s, b :: rest =>
    if b = 30 then
      match splitTerm rest with
      | none => (b :: rest).map (fun c => (c, ByteClass.stashed))
      | some (payload, rest') =>
        (b :: rest.take (payload.length + 1)).map (fun c => (c, ByteClass.marker)) ++
          scanClass now pc fuel
            (handleMarker now pc s (utf8DecodeFuel payload.length payload)).1 rest'
    else
      if s.in_command ∧ s.skip_until_eol then
        let timedOut : Bool :=
          match s.skip_started_at with
          | some t => decide (50 ≤ now - t)
          | none => false
        if b = 10 ∨ b = 13 ∨ timedOut = true then
          (b, ByteClass.shown) ::
            scanClass now pc fuel
              { s with skip_until_eol := false, skip_started_at := none } rest
        else (b, ByteClass.skipped) :: scanClass now pc fuel s rest
      else (b, ByteClass.shown) :: scanClass now pc fuel s rest

/-- Resume a scan from the result of a previous call: re-feed the stashed
carryover in front of the new bytes, as `process_output` does. -/
def resumeScan (now : Nat) (pc : List Nat) (r : DState × List Nat × List LogEvent)
    (ys : List Nat) : DState × List Nat × List LogEvent :=
  let r2 := scan now pc { r.1 with partialMarker := none }
    ((r.1.partialMarker.getD []) ++ ys)
  (r2.1, r.2.1 ++ r2.2.1, r.2.2 ++ r2.2.2)

/-- The boundary events of a stream: everything except `Output`. -/
def boundaryEvents (evs : List LogEvent) : List LogEvent :=
  evs.filter (fun e =>
    match e with
    | LogEvent.Output _ => false
    | _ => true)

/-- Whether a command is open after a sequence of events: a `CommandStart`
opens, a `CommandEnd` closes, `Output` does not change it. -/
def evOpen (b : Bool) (evs : List LogEvent) : Bool :=
  evs.foldl (fun acc e =>
    match e with
    | LogEvent.CommandStart _ _ => true
    | LogEvent.CommandEnd _ _ _ => false
    | LogEvent.Output _ => acc) b

/-- A world with an active pid marker for a live process 123. -/
def wit9 : World := ⟨some (strBytes "123"), fun p => decide (p = 123), []⟩

/-- The pending exit code reconstructed from a marker history: each
`RECLI_END` overwrites it with its parse result. -/
def specExitAcc (e0 : Option Int) (ms : List (List Nat)) : Option Int :=
  ms.foldl (fun acc m =>
    match stripTag endTag m with
    | some r => parseI32 (trimChars r)
    | none => acc) e0

/-- The pending pwd reconstructed from a marker history: each `RECLI_PWD`
overwrites it with its payload. -/
def specPwdAcc (p0 : Option (List Nat)) (ms : List (List Nat)) : Option (List Nat) :=
  ms.foldl (fun acc m =>
    match stripTag pwdTag m with
    | some r => some r
    | none => acc) p0

/-- The invariant behind the (corrected) preview cap: the in-progress preview
and every persisted preview stay under 24 KiB. -/
def previewInv (l : CommandLog) : Prop :=
  utf8Len l.current_preview ≤ 24576 ∧
  ∀ e ∈ l.entries, utf8Len e.output_preview ≤ 24576

/-! ## Basic lemmas about the scanner -/

theorem scan_nil (now : Nat) (pc : List Nat) (s : DState) :
    scan now pc s [] = (s, [], []) := by
  rw [scan]

theorem scan_stash (now : Nat) (pc : List Nat) (s : DState) (rest : List Nat)
    (h : splitTerm rest = none) :
    scan now pc s (30 :: rest) =
      ({ s with partialMarker := some (30 :: rest) }, [], []) := by
  rw [scan.eq_def]
  simp only [if_pos]
  split <;> simp_all

theorem scan_marker (now : Nat) (pc : List Nat) (s : DState)
    (rest payload rest' : List Nat) (h : splitTerm rest = some (payload, rest')) :
    scan now pc s (30 :: rest) =
      (let se := handleMarker now pc s (utf8DecodeLossy payload)
       let r := scan now pc se.1 rest'
       (r.1, r.2.1, se.2 ++ r.2.2)) := by
  rw [scan.eq_def]
  simp only [if_pos]
  split <;> simp_all

theorem scan_skip_stop (now : Nat) (pc : List Nat) (s : DState) (b : Nat)
    (rest : List Nat) (hb : b ≠ 30)
    (hsk : s.in_command = true ∧ s.skip_until_eol = true)
    (hstop : b = 10 ∨ b = 13 ∨
      (match s.skip_started_at with
       | some t => decide (50 ≤ now - t)
       | none => false) = true) :
    scan now pc s (b :: rest) =
      (let s' := { s with skip_until_eol := false, skip_started_at := none }
       let r := scan now pc s' rest
       (r.1, b :: r.2.1, r.2.2)) := by
  rw [scan.eq_def]
  simp only []
  rw [if_neg hb, if_pos hsk, if_pos hstop]

theorem scan_skip_drop (now : Nat) (pc : List Nat) (s : DState) (b : Nat)
    (rest : List Nat) (hb : b ≠ 30)
    (hsk : s.in_command = true ∧ s.skip_until_eol = true)
    (hstop : ¬(b = 10 ∨ b = 13 ∨
      (match s.skip_started_at with
       | some t => decide (50 ≤ now - t)
       | none => false) = true)) :
    scan now pc s (b :: rest) = scan now pc s rest := by
  rw [scan.eq_def]
  simp only []
  rw [if_neg hb, if_pos hsk, if_neg hstop]

theorem scan_pass (now : Nat) (pc : List Nat) (s : DState) (b : Nat)
    (rest : List Nat) (hb : b ≠ 30)
    (hsk : ¬(s.in_command = true ∧ s.skip_until_eol = true)) :
    scan now pc s (b :: rest) =
      (let r := scan now pc s rest
       (r.1, b :: r.2.1, r.2.2)) := by
  rw [scan.eq_def]
  simp only []
  rw [if_neg hb, if_neg hsk]

/-! ## Fuel-indexed twins of the recursive functions

`scan` and `utf8DecodeLossy` are defined by well-founded recursion, which the
kernel cannot evaluate; these structurally recursive twins (fuel bounded by
the buffer length, which the recursion never exceeds) are proved equal to
them and used to evaluate concrete inputs. -/

theorem utf8DecodeFuel_spec :
    ∀ (fuel : Nat) (l : List Nat), l.length ≤ fuel →
      utf8DecodeFuel fuel l = utf8DecodeLossy l := by
  intro fuel
  induction fuel with
  | zero =>
    intro l h
    have hl : l = [] := List.eq_nil_of_length_eq_zero (Nat.le_zero.mp h)
    subst hl
    rw [utf8DecodeLossy]
    rfl
  | succ fuel ih =>
    intro l h
    cases l with
    | nil => rw [utf8DecodeLossy]; rfl
    | cons b rest =>
      rw [utf8DecodeLossy]
      simp only [utf8DecodeFuel]
      rw [ih (utf8Step b rest).2
        (le_trans (utf8Step_len b rest) (Nat.le_of_succ_le_succ h))]

theorem scanFuel_spec (now : Nat) (pc : List Nat) :
    ∀ (fuel : Nat) (s : DState) (buf : List Nat), buf.length ≤ fuel →
      scanFuel now pc fuel s buf = scan now pc s buf := by
  intro fuel
  induction fuel with
  | zero =>
    intro s buf h
    have hl : buf = [] := List.eq_nil_of_length_eq_zero (Nat.le_zero.mp h)
    subst hl
    rw [scan_nil]
    rfl
  | succ fuel ih =>
    intro s buf h
    cases buf with
    | nil => rw [scan_nil]; rfl
    | cons b rest =>
      by_cases hb : b = 30
      · subst hb
        cases hsp : splitTerm rest with
        | none =>
          rw [scan_stash now pc s rest hsp]
          simp [scanFuel, hsp]
        | some pr =>
          cases pr with
          | mk payload rest' =>
            have hr' : rest'.length ≤ fuel := by
              have := splitTerm_some_length hsp
              simp only [List.length_cons] at h
              omega
            rw [scan_marker now pc s rest payload rest' hsp]
            simp only [scanFuel, hsp]
            rw [utf8DecodeFuel_spec payload.length payload (le_refl _)]
            rw [ih _ rest' hr']
            simp
      · by_cases hsk : s.in_command = true ∧ s.skip_until_eol = true
        · by_cases hstop : b = 10 ∨ b = 13 ∨
            (match s.skip_started_at with
             | some t => decide (50 ≤ now - t)
             | none => false) = true
          · rw [scan_skip_stop now pc s b rest hb hsk hstop]
            simp only [scanFuel]
            rw [if_neg hb, if_pos hsk, if_pos hstop]
            rw [ih _ rest (Nat.le_of_succ_le_succ h)]
          · rw [scan_skip_drop now pc s b rest hb hsk hstop]
            simp only [scanFuel]
            rw [if_neg hb, if_pos hsk, if_neg hstop]
            exact ih _ rest (Nat.le_of_succ_le_succ h)
        · rw [scan_pass now pc s b rest hb hsk]
          simp only [scanFuel]
          rw [if_neg hb, if_neg hsk]
          rw [ih _ rest (Nat.le_of_succ_le_succ h)]

/-- Kernel-evaluable form of `process_output`. -/
theorem processOutput_eval (now : Nat) (pc : List Nat) (s : DState) (data : List Nat) :
    processOutput now pc s data =
      ((scanFuel now pc ((s.partialMarker.getD []) ++ data).length
          { s with partialMarker := none } ((s.partialMarker.getD []) ++ data)).1,
       (scanFuel now pc ((s.partialMarker.getD []) ++ data).length
          { s with partialMarker := none } ((s.partialMarker.getD []) ++ data)).2.1,
       if (scanFuel now pc ((s.partialMarker.getD []) ++ data).length
            { s with partialMarker := none } ((s.partialMarker.getD []) ++ data)).1.in_command = true ∧
          (scanFuel now pc ((s.partialMarker.getD []) ++ data).length
            { s with partialMarker := none } ((s.partialMarker.getD []) ++ data)).2.1 ≠ [] then
         (scanFuel now pc ((s.partialMarker.getD []) ++ data).length
            { s with partialMarker := none } ((s.partialMarker.getD []) ++ data)).2.2 ++
           [LogEvent.Output ((scanFuel now pc ((s.partialMarker.getD []) ++ data).length
              { s with partialMarker := none } ((s.partialMarker.getD []) ++ data)).2.1)]
       else
         (scanFuel now pc ((s.partialMarker.getD []) ++ data).length
            { s with partialMarker := none } ((s.partialMarker.getD []) ++ data)).2.2) := by
  rw [scanFuel_spec now pc _ _ _ (le_refl _)]
  rfl

theorem splitTerm_none_iff (xs : List Nat) :
    splitTerm xs = none ↔ ∀ c ∈ xs, c ≠ 10 ∧ c ≠ 13 := by
  induction xs with
  | nil => simp [splitTerm]
  | cons b rest ih =>
    simp only [splitTerm]
    split
    · next hb =>
      simp only [Bool.or_eq_true, beq_iff_eq] at hb
      constructor
      · intro h; cases h
      · intro h
        rcases h b (by simp) with ⟨h10, h13⟩
        rcases hb with h | h
        · exact absurd h h10
        · exact absurd h h13
    · next hb =>
      simp only [Bool.or_eq_true, beq_iff_eq] at hb
      push_neg at hb
      cases hs : splitTerm rest with
      | none =>
        simp only [List.mem_cons]
        constructor
        · intro _ c hc
          rcases hc with rfl | hc
          · exact hb
          · exact (ih.mp hs) c hc
        · intro _; trivial
      | some pr =>
        simp only [List.mem_cons]
        constructor
        · intro h; cases h
        · intro h
          have := ih.mpr (fun c hc => h c (Or.inr hc))
          rw [this] at hs
          cases hs

theorem splitTerm_some_eq {xs p r : List Nat} (h : splitTerm xs = some (p, r)) :
    ∃ c, (c = 10 ∨ c = 13) ∧ xs = p ++ c :: r := by
  induction xs generalizing p r with
  | nil => simp [splitTerm] at h
  | cons b rest ih =>
    simp only [splitTerm] at h
    split at h
    · next hb =>
      simp only [Bool.or_eq_true, beq_iff_eq] at hb
      cases h
      exact ⟨b, hb, rfl⟩
    · cases hs : splitTerm rest with
      | none => rw [hs] at h; cases h
      | some pr =>
        rw [hs] at h
        cases pr with
        | mk p' r' =>
          cases h
          rcases ih hs with ⟨c, hc, hx⟩
          exact ⟨c, hc, by simp [hx]⟩

theorem splitTerm_append_none {xs : List Nat} (ys : List Nat)
    (h : splitTerm xs = none) :
    splitTerm (xs ++ ys) =
      (splitTerm ys).map (fun pr => (xs ++ pr.1, pr.2)) := by
  induction xs with
  | nil =>
    cases hy : splitTerm ys <;> simp [hy]
  | cons b rest ih =>
    simp only [splitTerm] at h
    split at h
    · cases h
    · next hb =>
      cases hs : splitTerm rest with
      | none =>
        simp only [List.cons_append, splitTerm]
        rw [if_neg (by simpa using hb)]
        rw [List.append_eq, ih hs]
        cases hy : splitTerm ys <;> simp
      | some pr => rw [hs] at h; cases h

theorem splitTerm_append_some {xs p r : List Nat} (ys : List Nat)
    (h : splitTerm xs = some (p, r)) :
    splitTerm (xs ++ ys) = some (p, r ++ ys) := by
  induction xs generalizing p r with
  | nil => simp [splitTerm] at h
  | cons b rest ih =>
    simp only [splitTerm] at h
    simp only [List.cons_append, splitTerm]
    split at h
    · next hb =>
      cases h
      rw [if_pos hb]
      simp
    · next hb =>
      rw [if_neg hb]
      cases hs : splitTerm rest with
      | none => rw [hs] at h; cases h
      | some pr =>
        rw [hs] at h
        cases pr with
        | mk p' r' =>
          cases h
          rw [List.append_eq, ih hs]

theorem splitTerm_some_suffix {xs p r : List Nat} (h : splitTerm xs = some (p, r)) :
    r.IsSuffix xs := by
  rcases splitTerm_some_eq h with ⟨c, _, rfl⟩
  exact (List.suffix_cons c r).trans (List.suffix_append _ _)

theorem tryFinish_pm (s : DState) :
    (tryFinishWhenReady s).1.partialMarker = s.partialMarker := by
  unfold tryFinishWhenReady
  repeat' split
  all_goals rfl

theorem tryFinish_no_output (s : DState) (d : List Nat) :
    LogEvent.Output d ∉ (tryFinishWhenReady s).2 := by
  unfold tryFinishWhenReady
  repeat' split
  all_goals simp

theorem startCommand_no_output (now : Nat) (pc : List Nat) (s : DState)
    (cmd : List Nat) (d : List Nat) :
    LogEvent.Output d ∉ (startCommand now pc s cmd).2 := by
  unfold startCommand
  split <;> simp

/-- `handle_marker` never touches the carryover buffer. -/
theorem handleMarker_pm (now : Nat) (pc : List Nat) (s : DState) (m : List Nat) :
    (handleMarker now pc s m).1.partialMarker = s.partialMarker := by
  unfold handleMarker
  repeat' split
  all_goals try dsimp only
  all_goals try split
  all_goals simp [tryFinish_pm, startCommand]

/-- `handle_marker` emits only `CommandStart`/`CommandEnd` events. -/
theorem handleMarker_no_output (now : Nat) (pc : List Nat) (s : DState)
    (m : List Nat) (d : List Nat) :
    LogEvent.Output d ∉ (handleMarker now pc s m).2 := by
  unfold handleMarker
  repeat' split
  all_goals try dsimp only
  all_goals try split
  all_goals simp [tryFinish_no_output, startCommand_no_output]

theorem DState.set_pm_self (s : DState) :
    { s with partialMarker := s.partialMarker } = s := by
  cases s; rfl

theorem DState.set_pm_twice (s : DState) (x y : Option (List Nat)) :
    { { s with partialMarker := x } with partialMarker := y } =
      { s with partialMarker := y } := by
  cases s; rfl

theorem DState.set_pm_none {s : DState} (h : s.partialMarker = none) :
    { s with partialMarker := none } = s := by
  have hs := DState.set_pm_self s
  rw [h] at hs
  exact hs

/-- The display bytes are a subsequence of the scanned buffer. -/
theorem scan_display_sublist (now : Nat) (pc : List Nat) (s : DState)
    (buf : List Nat) : ((scan now pc s buf).2.1).Sublist buf := by
  induction s, buf using scan.induct now pc with
  | case1 s => simp [scan_nil]
  | case2 s tail h =>
    rw [scan_stash now pc s tail h]
    simp
  | case3 s tail payload rest' h se ih =>
    rw [scan_marker now pc s tail payload rest' h]
    exact (ih.trans (splitTerm_some_suffix h).sublist).trans
      (List.sublist_cons_self 30 tail)
  | case4 s b tail hb hsk timedOut hstop s' ih =>
    rw [scan_skip_stop now pc s b tail hb hsk hstop]
    exact ih.cons₂ b
  | case5 s b tail hb hsk timedOut hstop ih =>
    rw [scan_skip_drop now pc s b tail hb hsk hstop]
    exact ih.trans (List.sublist_cons_self b tail)
  | case6 s b tail hb hsk ih =>
    rw [scan_pass now pc s b tail hb hsk]
    exact ih.cons₂ b

/-- No display byte is the marker byte `0x1E`. -/
theorem scan_display_no30 (now : Nat) (pc : List Nat) (s : DState)
    (buf : List Nat) : 30 ∉ (scan now pc s buf).2.1 := by
  induction s, buf using scan.induct now pc with
  | case1 s => simp [scan_nil]
  | case2 s tail h => rw [scan_stash now pc s tail h]; simp
  | case3 s tail payload rest' h se ih =>
    rw [scan_marker now pc s tail payload rest' h]
    exact ih
  | case4 s b tail hb hsk timedOut hstop s' ih =>
    rw [scan_skip_stop now pc s b tail hb hsk hstop]
    simp only [List.mem_cons, not_or]
    exact ⟨fun hc => hb hc.symm, ih⟩
  | case5 s b tail hb hsk timedOut hstop ih =>
    rw [scan_skip_drop now pc s b tail hb hsk hstop]
    exact ih
  | case6 s b tail hb hsk ih =>
    rw [scan_pass now pc s b tail hb hsk]
    simp only [List.mem_cons, not_or]
    exact ⟨fun hc => hb hc.symm, ih⟩

/-- Scanning marker-free input while no command is open is the identity. -/
theorem scan_idle (now : Nat) (pc : List Nat) (s : DState) (buf : List Nat)
    (hic : s.in_command = false) (hno : 30 ∉ buf) :
    scan now pc s buf = (s, buf, []) := by
  induction buf with
  | nil => exact scan_nil now pc s
  | cons b rest ih =>
    simp only [List.mem_cons, not_or] at hno
    have hb : b ≠ 30 := fun hc => hno.1 hc.symm
    rw [scan_pass now pc s b rest hb (by simp [hic])]
    rw [ih hno.2]

/-- The scanner never emits `Output` events; those are appended only by
`process_output` itself. -/
theorem scan_no_output (now : Nat) (pc : List Nat) (s : DState)
    (buf : List Nat) (d : List Nat) : LogEvent.Output d ∉ (scan now pc s buf).2.2 := by
  induction s, buf using scan.induct now pc with
  | case1 s => simp [scan_nil]
  | case2 s tail h => rw [scan_stash now pc s tail h]; simp
  | case3 s tail payload rest' h se ih =>
    rw [scan_marker now pc s tail payload rest' h]
    simp only [List.mem_append, not_or]
    exact ⟨handleMarker_no_output now pc s _ d, ih⟩
  | case4 s b tail hb hsk timedOut hstop s' ih =>
    rw [scan_skip_stop now pc s b tail hb hsk hstop]
    exact ih
  | case5 s b tail hb hsk timedOut hstop ih =>
    rw [scan_skip_drop now pc s b tail hb hsk hstop]
    exact ih
  | case6 s b tail hb hsk ih =>
    rw [scan_pass now pc s b tail hb hsk]
    exact ih

/-- Shape of the carryover stashed by a scan: it starts with `0x1E`, has no
terminator after it, and is a suffix of the scanned buffer. -/
theorem scan_pm_shape (now : Nat) (pc : List Nat) (s : DState) (buf : List Nat)
    (hpm : s.partialMarker = none) (t : List Nat)
    (h : (scan now pc s buf).1.partialMarker = some t) :
    t.head? = some 30 ∧ (∀ c ∈ t.tail, c ≠ 10 ∧ c ≠ 13) ∧ t.IsSuffix buf := by
  induction s, buf using scan.induct now pc with
  | case1 s =>
    rw [scan_nil] at h
    rw [hpm] at h
    cases h
  | case2 s tail hsp =>
    rw [scan_stash now pc s tail hsp] at h
    simp only at h
    cases h
    refine ⟨rfl, ?_, List.suffix_refl _⟩
    simpa using (splitTerm_none_iff tail).mp hsp
  | case3 s tail payload rest' hsp se ih =>
    rw [scan_marker now pc s tail payload rest' hsp] at h
    simp only at h
    have hpm' : (handleMarker now pc s (utf8DecodeLossy payload)).1.partialMarker = none := by
      rw [handleMarker_pm]; exact hpm
    rcases ih hpm' h with ⟨h1, h2, h3⟩
    exact ⟨h1, h2, (h3.trans (splitTerm_some_suffix hsp)).trans
      ((List.suffix_cons 30 tail))⟩
  | case4 s b tail hb hsk timedOut hstop s' ih =>
    rw [scan_skip_stop now pc s b tail hb hsk hstop] at h
    simp only at h
    rcases ih hpm h with ⟨h1, h2, h3⟩
    exact ⟨h1, h2, h3.trans (List.suffix_cons b tail)⟩
  | case5 s b tail hb hsk timedOut hstop ih =>
    rw [scan_skip_drop now pc s b tail hb hsk hstop] at h
    rcases ih hpm h with ⟨h1, h2, h3⟩
    exact ⟨h1, h2, h3.trans (List.suffix_cons b tail)⟩
  | case6 s b tail hb hsk ih =>
    rw [scan_pass now pc s b tail hb hsk] at h
    simp only at h
    rcases ih hpm h with ⟨h1, h2, h3⟩
    exact ⟨h1, h2, h3.trans (List.suffix_cons b tail)⟩

/-- Chunk-split equivalence at the scanner level: scanning `xs ++ ys` in one
go is the same as scanning `xs`, then resuming on `ys` with the carryover
stitched in front. -/
theorem scan_append (now : Nat) (pc : List Nat) (ys : List Nat) :
    ∀ (s : DState) (xs : List Nat), s.partialMarker = none →
      scan now pc s (xs ++ ys) = resumeScan now pc (scan now pc s xs) ys := by
  intro s xs
  induction s, xs using scan.induct now pc with
  | case1 s =>
    intro h
    simp [scan_nil, resumeScan, h, DState.set_pm_none h]
  | case2 s tail hsp =>
    intro h
    rw [scan_stash now pc s tail hsp]
    simp only [resumeScan, Option.getD_some]
    rw [DState.set_pm_twice, DState.set_pm_none h]
    simp only [List.cons_append, List.nil_append]
  | case3 s tail payload rest' hsp se ih =>
    intro h
    have hse : se = handleMarker now pc s (utf8DecodeLossy payload) := rfl
    rw [hse] at ih
    rw [List.cons_append,
      scan_marker now pc s (tail ++ ys) payload (rest' ++ ys)
        (splitTerm_append_some ys hsp)]
    simp only []
    rw [ih (by rw [handleMarker_pm]; exact h)]
    rw [scan_marker now pc s tail payload rest' hsp]
    simp only [resumeScan, handleMarker_pm, List.append_assoc]
  | case4 s b tail hb hsk timedOut hstop s' ih =>
    intro h
    have hs' : s' = { s with skip_until_eol := false, skip_started_at := none } := rfl
    rw [hs'] at ih
    rw [List.cons_append, scan_skip_stop now pc s b (tail ++ ys) hb hsk hstop]
    simp only []
    rw [ih (by simp [h])]
    rw [scan_skip_stop now pc s b tail hb hsk hstop]
    simp only [resumeScan, List.cons_append]
  | case5 s b tail hb hsk timedOut hstop ih =>
    intro h
    rw [List.cons_append, scan_skip_drop now pc s b (tail ++ ys) hb hsk hstop,
      scan_skip_drop now pc s b tail hb hsk hstop]
    exact ih h
  | case6 s b tail hb hsk ih =>
    intro h
    rw [List.cons_append, scan_pass now pc s b (tail ++ ys) hb hsk]
    simp only []
    rw [ih h]
    rw [scan_pass now pc s b tail hb hsk]
    simp only [resumeScan, List.cons_append]

theorem boundaryEvents_append (l1 l2 : List LogEvent) :
    boundaryEvents (l1 ++ l2) = boundaryEvents l1 ++ boundaryEvents l2 :=
  List.filter_append _ _

theorem boundaryEvents_of_no_output (l : List LogEvent)
    (h : ∀ d, LogEvent.Output d ∉ l) : boundaryEvents l = l := by
  induction l with
  | nil => rfl
  | cons e rest ih =>
    have hrest : ∀ d, LogEvent.Output d ∉ rest := by
      intro d hd
      exact h d (List.mem_cons_of_mem e hd)
    cases e with
    | CommandStart cmd cwd => simp [boundaryEvents, List.filter] at ih ⊢; exact ih hrest
    | CommandEnd ec ps cwd => simp [boundaryEvents, List.filter] at ih ⊢; exact ih hrest
    | Output d => exact absurd (List.mem_cons_self _ _) (h d)

theorem processOutput_state (now : Nat) (pc : List Nat) (s : DState) (data : List Nat) :
    (processOutput now pc s data).1 =
      (scan now pc { s with partialMarker := none } ((s.partialMarker.getD []) ++ data)).1 := rfl

theorem processOutput_display (now : Nat) (pc : List Nat) (s : DState) (data : List Nat) :
    (processOutput now pc s data).2.1 =
      (scan now pc { s with partialMarker := none } ((s.partialMarker.getD []) ++ data)).2.1 := rfl

theorem processOutput_boundary (now : Nat) (pc : List Nat) (s : DState) (data : List Nat) :
    boundaryEvents (processOutput now pc s data).2.2 =
      (scan now pc { s with partialMarker := none } ((s.partialMarker.getD []) ++ data)).2.2 := by
  have hno := scan_no_output now pc { s with partialMarker := none }
    ((s.partialMarker.getD []) ++ data)
  unfold processOutput
  dsimp only
  split
  · rw [boundaryEvents_append, boundaryEvents_of_no_output _ hno]
    simp [boundaryEvents]
  · exact boundaryEvents_of_no_output _ hno

/-- Claim C1 (amended): splitting a byte sequence across two successive
`process_output` calls (same clock reading) yields the same final state, the
same concatenated display output, and the same cumulative sequence of
boundary events (`CommandStart`/`CommandEnd`); `Output` events may differ in
chunking and in whether trailing display bytes of an already-finished command
are logged.  An incomplete marker at a chunk end is carried over whole: it
starts with `0x1E`, contains no terminator after it, and is a suffix of the
bytes scanned by the call. -/
theorem recli_c1_split_robustness (now : Nat) (pc : List Nat) (s : DState)
    (a b : List Nat) :
    (processOutput now pc (processOutput now pc s a).1 b).1 =
        (processOutput now pc s (a ++ b)).1
  ∧ (processOutput now pc s a).2.1 ++ (processOutput now pc (processOutput now pc s a).1 b).2.1 =
        (processOutput now pc s (a ++ b)).2.1
  ∧ boundaryEvents ((processOutput now pc s a).2.2 ++ (processOutput now pc (processOutput now pc s a).1 b).2.2) =
        boundaryEvents (processOutput now pc s (a ++ b)).2.2
  ∧ ∀ t, (processOutput now pc s a).1.partialMarker = some t →
      t.head? = some 30 ∧ (∀ c ∈ t.tail, c ≠ 10 ∧ c ≠ 13) ∧
      t.IsSuffix ((s.partialMarker.getD []) ++ a) := by
  have h0 : ({ s with partialMarker := none } : DState).partialMarker = none := rfl
  have key := scan_append now pc b { s with partialMarker := none }
    (s.partialMarker.getD [] ++ a) h0
  rw [List.append_assoc] at key
  refine ⟨?_, ?_, ?_, ?_⟩
  · simp only [processOutput_state]
    rw [key]
    simp only [resumeScan]
  · simp only [processOutput_display, processOutput_state]
    rw [key]
    simp only [resumeScan]
  · rw [boundaryEvents_append]
    simp only [processOutput_boundary, processOutput_state]
    rw [key]
    simp only [resumeScan]
  · intro t ht
    rw [processOutput_state] at ht
    exact scan_pm_shape now pc _ _ h0 t ht

/-- Claim C1 (counterexample): splitting
`"\x1eRECLI_START:a\n\nX" ++ "\x1eRECLI_END:0\n\x1eRECLI_PWD:/\n"` at the
chunk boundary shown yields the same concatenated display bytes but a
different cumulative event sequence: the split run logs `Output "\nX"`
(the command is still open when the first call ends), the whole run logs no
`Output` at all (the command finalizes within the single call before the
call-end check). -/
theorem recli_c1_counterexample :
    ((processOutput 0 (strBytes "/cwd0") DState.init
        (strBytes "\x1eRECLI_START:a\n\nX")).2.1 ++
     (processOutput 0 (strBytes "/cwd0")
        (processOutput 0 (strBytes "/cwd0") DState.init
          (strBytes "\x1eRECLI_START:a\n\nX")).1
        (strBytes "\x1eRECLI_END:0\n\x1eRECLI_PWD:/\n")).2.1 =
      (processOutput 0 (strBytes "/cwd0") DState.init
        (strBytes "\x1eRECLI_START:a\n\nX" ++ strBytes "\x1eRECLI_END:0\n\x1eRECLI_PWD:/\n")).2.1)
  ∧ ((processOutput 0 (strBytes "/cwd0") DState.init
        (strBytes "\x1eRECLI_START:a\n\nX")).2.2 ++
     (processOutput 0 (strBytes "/cwd0")
        (processOutput 0 (strBytes "/cwd0") DState.init
          (strBytes "\x1eRECLI_START:a\n\nX")).1
        (strBytes "\x1eRECLI_END:0\n\x1eRECLI_PWD:/\n")).2.2 ≠
      (processOutput 0 (strBytes "/cwd0") DState.init
        (strBytes "\x1eRECLI_START:a\n\nX" ++ strBytes "\x1eRECLI_END:0\n\x1eRECLI_PWD:/\n")).2.2) := by
  simp only [processOutput_eval]
  decide

/-- Claim C1 (witness): concrete instantiation, with the carryover hypothesis
discharged at a chunk that ends inside a marker. -/
theorem recli_c1_witness :
    (strBytes "\x1eRC").head? = some 30 ∧
    (∀ c ∈ (strBytes "\x1eRC").tail, c ≠ 10 ∧ c ≠ 13) ∧
    (strBytes "\x1eRC").IsSuffix ((DState.init.partialMarker.getD []) ++ strBytes "ab\x1eRC") :=
  (recli_c1_split_robustness 0 [] DState.init (strBytes "ab\x1eRC") []).2.2.2
    (strBytes "\x1eRC") (by simp only [processOutput_eval]; decide)

theorem take_len_succ (l r : List Nat) (c : Nat) :
    (l ++ c :: r).take (l.length + 1) = l ++ [c] := by
  induction l with
  | nil => rfl
  | cons a as ih =>
    simp only [List.cons_append, List.length_cons, List.take_succ_cons, ih]

theorem filter_classify_ne (l : List Nat) (cl cl' : ByteClass)
    (h : (cl == cl') = false) :
    (l.map (fun c => (c, cl))).filter (fun q => q.2 == cl') = [] := by
  induction l with
  | nil => rfl
  | cons b bs ih => simp [List.filter_cons, h, ih]

theorem filter_classify_eq (l : List Nat) (cl : ByteClass) :
    (l.map (fun c => (c, cl))).filter (fun q => q.2 == cl) =
      l.map (fun c => (c, cl)) := by
  induction l with
  | nil => rfl
  | cons b bs ih => simp [List.filter_cons, ih]

theorem filter_cons_classify_ne (b : Nat) (cl cl' : ByteClass)
    (l : List (Nat × ByteClass)) (h : (cl == cl') = false) :
    ((b, cl) :: l).filter (fun q => q.2 == cl') = l.filter (fun q => q.2 == cl') := by
  simp [List.filter_cons, h]

theorem filter_cons_classify_eq (b : Nat) (cl : ByteClass)
    (l : List (Nat × ByteClass)) :
    ((b, cl) :: l).filter (fun q => q.2 == cl) =
      (b, cl) :: l.filter (fun q => q.2 == cl) := by
  simp [List.filter_cons]

/-- Every scanned byte is classified exactly once, in the original order. -/
theorem scanClass_cover (now : Nat) (pc : List Nat) :
    ∀ (fuel : Nat) (s : DState) (buf : List Nat), buf.length ≤ fuel →
      (scanClass now pc fuel s buf).map Prod.fst = buf := by
  intro fuel
  induction fuel with
  | zero =>
    intro s buf h
    have hl : buf = [] := List.eq_nil_of_length_eq_zero (Nat.le_zero.mp h)
    subst hl
    rfl
  | succ fuel ih =>
    intro s buf h
    cases buf with
    | nil => rfl
    | cons b rest =>
      by_cases hb : b = 30
      · subst hb
        cases hsp : splitTerm rest with
        | none =>
          simp only [scanClass, hsp, if_true]
          simp [Function.comp_def]
        | some pr =>
          cases pr with
          | mk payload rest' =>
            have hr' : rest'.length ≤ fuel := by
              have := splitTerm_some_length hsp
              simp only [List.length_cons] at h
              omega
            rcases splitTerm_some_eq hsp with ⟨c, _, hx⟩
            simp only [scanClass, hsp, if_true]
            rw [List.map_append, ih _ rest' hr']
            subst hx
            rw [take_len_succ]
            simp [Function.comp_def]
      · by_cases hsk : s.in_command = true ∧ s.skip_until_eol = true
        · by_cases hstop : b = 10 ∨ b = 13 ∨
            (match s.skip_started_at with
             | some t => decide (50 ≤ now - t)
             | none => false) = true
          · simp only [scanClass]
            rw [if_neg hb, if_pos hsk, if_pos hstop]
            simp only [List.map_cons]
            rw [ih _ rest (Nat.le_of_succ_le_succ h)]
          · simp only [scanClass]
            rw [if_neg hb, if_pos hsk, if_neg hstop]
            simp only [List.map_cons]
            rw [ih _ rest (Nat.le_of_succ_le_succ h)]
        · simp only [scanClass]
          rw [if_neg hb, if_neg hsk]
          simp only [List.map_cons]
          rw [ih _ rest (Nat.le_of_succ_le_succ h)]

/-- The display bytes of a scan are exactly the bytes classified `shown`. -/
theorem scanClass_display (now : Nat) (pc : List Nat) :
    ∀ (fuel : Nat) (s : DState) (buf : List Nat), buf.length ≤ fuel →
      (scan now pc s buf).2.1 =
        ((scanClass now pc fuel s buf).filter
          (fun q => q.2 == ByteClass.shown)).map Prod.fst := by
  intro fuel
  induction fuel with
  | zero =>
    intro s buf h
    have hl : buf = [] := List.eq_nil_of_length_eq_zero (Nat.le_zero.mp h)
    subst hl
    rw [scan_nil]
    rfl
  | succ fuel ih =>
    intro s buf h
    cases buf with
    | nil => rw [scan_nil]; rfl
    | cons b rest =>
      by_cases hb : b = 30
      · subst hb
        cases hsp : splitTerm rest with
        | none =>
          rw [scan_stash now pc s rest hsp]
          dsimp only
          simp only [scanClass, hsp, if_true]
          rw [filter_classify_ne _ _ _ (by decide), List.map_nil]
        | some pr =>
          cases pr with
          | mk payload rest' =>
            have hr' : rest'.length ≤ fuel := by
              have := splitTerm_some_length hsp
              simp only [List.length_cons] at h
              omega
            rw [scan_marker now pc s rest payload rest' hsp]
            dsimp only
            simp only [scanClass, hsp, if_true]
            rw [utf8DecodeFuel_spec payload.length payload (le_refl _)]
            rw [List.filter_append, filter_classify_ne _ _ _ (by decide),
              List.nil_append]
            exact ih _ rest' hr'
      · by_cases hsk : s.in_command = true ∧ s.skip_until_eol = true
        · by_cases hstop : b = 10 ∨ b = 13 ∨
            (match s.skip_started_at with
             | some t => decide (50 ≤ now - t)
             | none => false) = true
          · rw [scan_skip_stop now pc s b rest hb hsk hstop]
            dsimp only
            simp only [scanClass]
            rw [if_neg hb, if_pos hsk, if_pos hstop]
            rw [filter_cons_classify_eq]
            simp only [List.map_cons]
            rw [ih _ rest (Nat.le_of_succ_le_succ h)]
          · rw [scan_skip_drop now pc s b rest hb hsk hstop]
            simp only [scanClass]
            rw [if_neg hb, if_pos hsk, if_neg hstop]
            rw [filter_cons_classify_ne _ _ _ _ (by decide)]
            exact ih _ rest (Nat.le_of_succ_le_succ h)
        · rw [scan_pass now pc s b rest hb hsk]
          dsimp only
          simp only [scanClass]
          rw [if_neg hb, if_neg hsk]
          rw [filter_cons_classify_eq]
          simp only [List.map_cons]
          rw [ih _ rest (Nat.le_of_succ_le_succ h)]

/-- The carried-over partial marker is exactly the bytes classified
`stashed`. -/
theorem scanClass_stash (now : Nat) (pc : List Nat) :
    ∀ (fuel : Nat) (s : DState) (buf : List Nat), buf.length ≤ fuel →
      s.partialMarker = none →
      ((scanClass now pc fuel s buf).filter
          (fun q => q.2 == ByteClass.stashed)).map Prod.fst =
        ((scan now pc s buf).1.partialMarker).getD [] := by
  intro fuel
  induction fuel with
  | zero =>
    intro s buf h hpm
    have hl : buf = [] := List.eq_nil_of_length_eq_zero (Nat.le_zero.mp h)
    subst hl
    rw [scan_nil, hpm]
    rfl
  | succ fuel ih =>
    intro s buf h hpm
    cases buf with
    | nil => rw [scan_nil, hpm]; rfl
    | cons b rest =>
      by_cases hb : b = 30
      · subst hb
        cases hsp : splitTerm rest with
        | none =>
          rw [scan_stash now pc s rest hsp]
          simp only [scanClass, hsp, if_true]
          rw [filter_classify_eq]
          simp [Function.comp_def]
        | some pr =>
          cases pr with
          | mk payload rest' =>
            have hr' : rest'.length ≤ fuel := by
              have := splitTerm_some_length hsp
              simp only [List.length_cons] at h
              omega
            rw [scan_marker now pc s rest payload rest' hsp]
            dsimp only
            simp only [scanClass, hsp, if_true]
            rw [utf8DecodeFuel_spec payload.length payload (le_refl _)]
            rw [List.filter_append, filter_classify_ne _ _ _ (by decide),
              List.nil_append]
            exact ih _ rest' hr' (by rw [handleMarker_pm]; exact hpm)
      · by_cases hsk : s.in_command = true ∧ s.skip_until_eol = true
        · by_cases hstop : b = 10 ∨ b = 13 ∨
            (match s.skip_started_at with
             | some t => decide (50 ≤ now - t)
             | none => false) = true
          · rw [scan_skip_stop now pc s b rest hb hsk hstop]
            dsimp only
            simp only [scanClass]
            rw [if_neg hb, if_pos hsk, if_pos hstop]
            rw [filter_cons_classify_ne _ _ _ _ (by decide)]
            exact ih _ rest (Nat.le_of_succ_le_succ h) hpm
          · rw [scan_skip_drop now pc s b rest hb hsk hstop]
            simp only [scanClass]
            rw [if_neg hb, if_pos hsk, if_neg hstop]
            rw [filter_cons_classify_ne _ _ _ _ (by decide)]
            exact ih _ rest (Nat.le_of_succ_le_succ h) hpm
        · rw [scan_pass now pc s b rest hb hsk]
          dsimp only
          simp only [scanClass]
          rw [if_neg hb, if_neg hsk]
          rw [filter_cons_classify_ne _ _ _ _ (by decide)]
          exact ih _ rest (Nat.le_of_succ_le_succ h) hpm

/-- Claim C3: on a fresh parser, marker-free input passes through unchanged
and produces no events; and in general every byte of carryover ++ chunk is
classified exactly once, in the original order — marker span, skip-dropped,
shown, or stashed — with the call's display bytes being exactly the `shown`
bytes and the carried-over partial marker exactly the `stashed` bytes. So
all bytes outside marker spans and outside the echo-skip window reach the
display unchanged, in order, exactly once. -/
theorem recli_c3_identity :
    (∀ (now : Nat) (pc : List Nat) (x : List Nat), 30 ∉ x →
      processOutput now pc DState.init x = (DState.init, x, []))
  ∧ (∀ (now : Nat) (pc : List Nat) (s : DState) (data : List Nat),
      (scanClass now pc ((s.partialMarker.getD []) ++ data).length
          { s with partialMarker := none }
          ((s.partialMarker.getD []) ++ data)).map Prod.fst =
        (s.partialMarker.getD []) ++ data
    ∧ (processOutput now pc s data).2.1 =
        ((scanClass now pc ((s.partialMarker.getD []) ++ data).length
            { s with partialMarker := none }
            ((s.partialMarker.getD []) ++ data)).filter
          (fun q => q.2 == ByteClass.shown)).map Prod.fst
    ∧ ((processOutput now pc s data).1.partialMarker).getD [] =
        ((scanClass now pc ((s.partialMarker.getD []) ++ data).length
            { s with partialMarker := none }
            ((s.partialMarker.getD []) ++ data)).filter
          (fun q => q.2 == ByteClass.stashed)).map Prod.fst) := by
  constructor
  · intro now pc x hno
    have key : scan now pc { DState.init with partialMarker := none }
        ((DState.init.partialMarker.getD []) ++ x) = (DState.init, x, []) := by
      have h1 : ({ DState.init with partialMarker := none } : DState) = DState.init := rfl
      have h2 : (DState.init.partialMarker.getD []) ++ x = x := by
        simp [DState.init]
      rw [h1, h2]
      exact scan_idle now pc DState.init x rfl hno
    simp only [processOutput, key]
    simp [DState.init]
  · intro now pc s data
    refine ⟨scanClass_cover now pc _ _ _ (le_refl _), ?_, ?_⟩
    · rw [processOutput_display]
      exact scanClass_display now pc _ _ _ (le_refl _)
    · rw [processOutput_state]
      exact (scanClass_stash now pc _ _ _ (le_refl _) rfl).symm

/-- Claim C3 (witness): marker-free identity at `"hi"`, and the exact
classification at a chunk holding a shown byte and an unterminated `0x1E`
tail. -/
theorem recli_c3_witness :
    processOutput 0 [] DState.init [104, 105] = (DState.init, [104, 105], [])
  ∧ ((scanClass 0 [] ((DState.init.partialMarker.getD []) ++ [104, 30]).length
        { DState.init with partialMarker := none }
        ((DState.init.partialMarker.getD []) ++ [104, 30])).map Prod.fst =
      (DState.init.partialMarker.getD []) ++ [104, 30]
    ∧ (processOutput 0 [] DState.init [104, 30]).2.1 =
        ((scanClass 0 [] ((DState.init.partialMarker.getD []) ++ [104, 30]).length
            { DState.init with partialMarker := none }
            ((DState.init.partialMarker.getD []) ++ [104, 30])).filter
          (fun q => q.2 == ByteClass.shown)).map Prod.fst
    ∧ ((processOutput 0 [] DState.init [104, 30]).1.partialMarker).getD [] =
        ((scanClass 0 [] ((DState.init.partialMarker.getD []) ++ [104, 30]).length
            { DState.init with partialMarker := none }
            ((DState.init.partialMarker.getD []) ++ [104, 30])).filter
          (fun q => q.2 == ByteClass.stashed)).map Prod.fst) :=
  ⟨recli_c3_identity.1 0 [] [104, 105] (by decide),
   recli_c3_identity.2 0 [] DState.init [104, 30]⟩

/-- Claim C8: no display byte ever equals `0x1E` — marker frames are stripped
and an unterminated `0x1E`-prefixed tail is withheld in the carryover buffer
(which always starts with `0x1E` and contains no terminator after it). -/
theorem recli_c8_markers_stripped (now : Nat) (pc : List Nat) (s : DState)
    (data : List Nat) :
    30 ∉ (processOutput now pc s data).2.1
  ∧ ∀ t, (processOutput now pc s data).1.partialMarker = some t →
      t.head? = some 30 ∧ ∀ c ∈ t.tail, c ≠ 10 ∧ c ≠ 13 := by
  constructor
  · rw [processOutput_display]
    exact scan_display_no30 now pc _ _
  · intro t ht
    rw [processOutput_state] at ht
    have hsh := scan_pm_shape now pc _ _ rfl t ht
    exact ⟨hsh.1, hsh.2.1⟩

/-- Claim C8 (witness). -/
theorem recli_c8_witness :
    30 ∉ (processOutput 0 [] DState.init (strBytes "ab\x1eRC")).2.1 ∧
    (strBytes "\x1eRC").head? = some 30 ∧
    ∀ c ∈ (strBytes "\x1eRC").tail, c ≠ 10 ∧ c ≠ 13 :=
  ⟨(recli_c8_markers_stripped 0 [] DState.init (strBytes "ab\x1eRC")).1,
   (recli_c8_markers_stripped 0 [] DState.init (strBytes "ab\x1eRC")).2
     (strBytes "\x1eRC") (by simp only [processOutput_eval]; decide)⟩

/-- Claim C4 (counterexample): on the spec's scenario input the display bytes
are not `"hi\n"` and no `Output{"hi\n"}` event is emitted: the echo-skip
window (which opens after the START marker's own terminator is consumed)
swallows `"hi"`, and the command finalizes inside the call so the call-end
`Output` check sees `in_command = false`. -/
theorem recli_c4_counterexample :
    (processOutput 0 (strBytes "/cwd0") DState.init
      (strBytes "\x1eRECLI_START:echo hi\nhi\n\x1eRECLI_END:0\n\x1eRECLI_PWD:/home/u\n")).2.1
      ≠ strBytes "hi\n"
  ∧ LogEvent.Output (strBytes "hi\n") ∉
      (processOutput 0 (strBytes "/cwd0") DState.init
        (strBytes "\x1eRECLI_START:echo hi\nhi\n\x1eRECLI_END:0\n\x1eRECLI_PWD:/home/u\n")).2.2 := by
  simp only [processOutput_eval]
  decide

/-- Claim C4 (amended): on the scenario input a fresh parser emits exactly
`CommandStart{cmd="echo hi", cwd=<process cwd>}` then
`CommandEnd{exit_code=0, cwd="/home/u"}`, and the display bytes are `"\n"`
(the `"hi"` output is consumed by the echo-skip window; no Output event is
emitted because the command is already finalized at the end of the call). -/
theorem recli_c4_scenario :
    processOutput 0 (strBytes "/cwd0") DState.init
      (strBytes "\x1eRECLI_START:echo hi\nhi\n\x1eRECLI_END:0\n\x1eRECLI_PWD:/home/u\n") =
    (⟨none, false, false, none, none, none, none, some (strBytes "/home/u")⟩,
     strBytes "\n",
     [LogEvent.CommandStart (strBytes "echo hi") (strBytes "/cwd0"),
      LogEvent.CommandEnd 0 none (strBytes "/home/u")]) := by
  simp only [processOutput_eval]
  decide

/-- Claim C5 (counterexample): `RECLI_PIPE:[0,x,2]` does not leave the
pending pipestatus at none — the unparsable element is skipped and the
pipestatus becomes `[0,2]`. -/
theorem recli_c5_counterexample :
    (handleMarker 0 [] { DState.init with in_command := true }
      (strBytes "RECLI_PIPE:[0,x,2]")).1.pending_pipestatus = some [0, 2]
  ∧ some [0, 2] ≠ (none : Option (List Int)) := by
  decide

/-- Claim C5 (amended): a `RECLI_PIPE` marker whose bracketed list has no
parsable element (in particular an empty list), or whose payload has no
bracket pair at all, is dropped with no state change and no event; elements
that fail to parse are skipped individually, so `[0,1,2]` yields pipestatus
`[0,1,2]` while `[0,x,2]` yields `[0,2]`; in either case a following
`RECLI_END` plus `RECLI_PWD` still finalizes, carrying the parsed
pipestatus. -/
theorem recli_c5_pipe_parsing :
    (∀ (now : Nat) (pc : List Nat) (s : DState) (rest inner : List Nat),
      stripBracket (trimChars rest) = some inner → parsePipeList inner = [] →
      handleMarker now pc s (pipeTag ++ rest) = (s, []))
  ∧ (∀ (now : Nat) (pc : List Nat) (s : DState) (rest : List Nat),
      stripBracket (trimChars rest) = none →
      handleMarker now pc s (pipeTag ++ rest) = (s, []))
  ∧ parsePipeList (strBytes "0,1,2") = [0, 1, 2]
  ∧ parsePipeList (strBytes "0,x,2") = [0, 2]
  ∧ (handleMarker 0 [] { DState.init with in_command := true }
      (strBytes "RECLI_PIPE:[0,1,2]")).1.pending_pipestatus = some [0, 1, 2]
  ∧ (runMarkers 0 [] { DState.init with in_command := true }
      [strBytes "RECLI_PIPE:[0,x,2]", strBytes "RECLI_END:0", strBytes "RECLI_PWD:/x"]).2
      = [LogEvent.CommandEnd 0 (some [0, 2]) (strBytes "/x")] := by
  refine ⟨?_, ?_, by decide, by decide, by decide, by decide⟩
  · intro now pc s rest inner hbr hv
    unfold handleMarker
    rw [show stripTag startTag (pipeTag ++ rest) = none from rfl]
    rw [show stripTag endTag (pipeTag ++ rest) = none from rfl]
    rw [show stripTag pwdTag (pipeTag ++ rest) = none from rfl]
    rw [show stripTag pipeTag (pipeTag ++ rest) = some rest from rfl]
    simp only [hbr]
    simp [hv]
  · intro now pc s rest hbr
    unfold handleMarker
    rw [show stripTag startTag (pipeTag ++ rest) = none from rfl]
    rw [show stripTag endTag (pipeTag ++ rest) = none from rfl]
    rw [show stripTag pwdTag (pipeTag ++ rest) = none from rfl]
    rw [show stripTag pipeTag (pipeTag ++ rest) = some rest from rfl]
    simp only [hbr]

/-- Claim C5 (witness): the drop branch at the concrete marker
`RECLI_PIPE:[]`. -/
theorem recli_c5_witness :
    handleMarker 0 [] { DState.init with in_command := true }
      (pipeTag ++ strBytes "[]") = ({ DState.init with in_command := true }, []) :=
  recli_c5_pipe_parsing.1 0 [] { DState.init with in_command := true }
    (strBytes "[]") [] (by decide) (by decide)

/-- Claim C10: when no command is in progress (`current_cmd` empty),
`finish_command` is a no-op: the whole log, in particular the entries
sequence, is unchanged and no empty entry is appended. -/
theorem recli_c10_finish_noop (l : CommandLog) (ec : Int)
    (ps : Option (List Int)) (cwd dir ts : List Nat) (now : Nat)
    (h : l.current_cmd = []) :
    l.finishCommand ec ps cwd dir ts now = l := by
  unfold CommandLog.finishCommand
  rw [if_pos h]

/-- Claim C10 (witness). -/
theorem recli_c10_witness :
    CommandLog.new.finishCommand 0 none [] [] [] 0 = CommandLog.new :=
  recli_c10_finish_noop CommandLog.new 0 none [] [] [] 0 rfl

theorem isSessionActive_iff (w : World) :
    isSessionActive w = true ↔
      ∃ content pid, w.pidFile = some content ∧
        parseU32 (trimChars content) = some pid ∧ w.alive pid = true := by
  constructor
  · intro h
    unfold isSessionActive at h
    cases hpf : w.pidFile with
    | none => rw [hpf] at h; dsimp only at h; cases h
    | some content =>
      rw [hpf] at h
      dsimp only at h
      cases hp : parseU32 (trimChars content) with
      | none => rw [hp] at h; dsimp only at h; cases h
      | some pid =>
        rw [hp] at h
        dsimp only at h
        exact ⟨content, pid, rfl, hp, h⟩
  · rintro ⟨content, pid, hpf, hp, ha⟩
    unfold isSessionActive
    rw [hpf]
    dsimp only
    rw [hp]
    exact ha

/-- Claim C9: `start_session` returns the session-already-active error iff
the pid marker file exists, its content parses as a process id, and that
process is alive; and on that error no session state is created — the
manager (no config, no consumer) and the world (no directory created, no pid
marker written) are returned unchanged. -/
theorem recli_c9_single_session (selfPid : Nat) (nowId nowTs home : List Nat)
    (sm : SessionManager) (w : World) (shell : List Nat) :
    ((∃ msg, (startSession selfPid nowId nowTs home sm w shell).1 =
        Except.error (RecliError.Session msg)) ↔
      ∃ content pid, w.pidFile = some content ∧
        parseU32 (trimChars content) = some pid ∧ w.alive pid = true)
  ∧ ((∃ content pid, w.pidFile = some content ∧
        parseU32 (trimChars content) = some pid ∧ w.alive pid = true) →
      (startSession selfPid nowId nowTs home sm w shell).2.1 = sm ∧
      (startSession selfPid nowId nowTs home sm w shell).2.2 = w) := by
  by_cases hA : isSessionActive w = true
  · refine ⟨⟨fun _ => (isSessionActive_iff w).mp hA, fun _ => ?_⟩, fun _ => ?_⟩
    · refine ⟨strBytes "session already active", ?_⟩
      unfold startSession
      rw [if_pos hA]
    · unfold startSession
      rw [if_pos hA]
      exact ⟨rfl, rfl⟩
  · refine ⟨⟨?_, fun hex => absurd ((isSessionActive_iff w).mpr hex) hA⟩,
      fun hex => absurd ((isSessionActive_iff w).mpr hex) hA⟩
    rintro ⟨msg, hmsg⟩
    unfold startSession at hmsg
    rw [if_neg hA] at hmsg
    cases hmsg

/-- Claim C9 (witness). -/
theorem recli_c9_witness :
    (startSession 7 [] [] [] SessionManager.new wit9 []).2.1 = SessionManager.new
  ∧ (startSession 7 [] [] [] SessionManager.new wit9 []).2.2 = wit9 :=
  (recli_c9_single_session 7 [] [] [] SessionManager.new wit9 []).2
    ⟨strBytes "123", 123, rfl, by decide, by decide⟩

theorem evOpen_append (b : Bool) (l1 l2 : List LogEvent) :
    evOpen b (l1 ++ l2) = evOpen (evOpen b l1) l2 :=
  List.foldl_append _ _ _ _

theorem startCommand_evOpen (now : Nat) (pc : List Nat) (s : DState)
    (cmd : List Nat) (b : Bool) :
    evOpen b (startCommand now pc s cmd).2 = true := by
  unfold startCommand
  split <;> simp [evOpen]

theorem tryFinish_evOpen (s : DState) :
    evOpen s.in_command (tryFinishWhenReady s).2 =
      (tryFinishWhenReady s).1.in_command := by
  unfold tryFinishWhenReady
  repeat' split
  all_goals simp_all [evOpen]

theorem startCommand_evOpen' (now : Nat) (pc : List Nat) (s : DState)
    (cmd : List Nat) (b : Bool) :
    evOpen b (startCommand now pc s cmd).2 =
      (startCommand now pc s cmd).1.in_command := by
  rw [startCommand_evOpen]
  simp [startCommand]

theorem tryFinish_evOpen' (s u : DState) (h : u.in_command = s.in_command) :
    evOpen s.in_command (tryFinishWhenReady u).2 =
      (tryFinishWhenReady u).1.in_command := by
  rw [← h]
  exact tryFinish_evOpen u

theorem handleMarker_evOpen (now : Nat) (pc : List Nat) (s : DState)
    (m : List Nat) :
    evOpen s.in_command (handleMarker now pc s m).2 =
      (handleMarker now pc s m).1.in_command := by
  unfold handleMarker
  repeat' split
  all_goals
    first
    | exact startCommand_evOpen' now pc s _ _
    | exact tryFinish_evOpen' s _ rfl
    | rfl
    | (dsimp only
       split
       all_goals first
         | exact tryFinish_evOpen' s _ rfl
         | rfl)

theorem scan_evOpen (now : Nat) (pc : List Nat) (s : DState) (buf : List Nat) :
    evOpen s.in_command (scan now pc s buf).2.2 = (scan now pc s buf).1.in_command := by
  induction s, buf using scan.induct now pc with
  | case1 s => simp [scan_nil, evOpen]
  | case2 s tail h => rw [scan_stash now pc s tail h]; simp [evOpen]
  | case3 s tail payload rest' h se ih =>
    have hse : se = handleMarker now pc s (utf8DecodeLossy payload) := rfl
    rw [hse] at ih
    rw [scan_marker now pc s tail payload rest' h]
    simp only []
    rw [evOpen_append, handleMarker_evOpen]
    exact ih
  | case4 s b tail hb hsk timedOut hstop s' ih =>
    have hs' : s' = { s with skip_until_eol := false, skip_started_at := none } := rfl
    rw [hs'] at ih
    rw [scan_skip_stop now pc s b tail hb hsk hstop]
    exact ih
  | case5 s b tail hb hsk timedOut hstop ih =>
    rw [scan_skip_drop now pc s b tail hb hsk hstop]
    exact ih
  | case6 s b tail hb hsk ih =>
    rw [scan_pass now pc s b tail hb hsk]
    exact ih

theorem processOutput_evOpen (now : Nat) (pc : List Nat) (s : DState)
    (data : List Nat) :
    evOpen s.in_command (processOutput now pc s data).2.2 =
      (processOutput now pc s data).1.in_command := by
  have hsc := scan_evOpen now pc { s with partialMarker := none }
    ((s.partialMarker.getD []) ++ data)
  unfold processOutput
  dsimp only
  split
  · rw [evOpen_append]
    simp only [evOpen, List.foldl]
    exact hsc
  · exact hsc

/-- Splitting `mEvs ++ [x]` at an `Output` event, when `mEvs` holds no
`Output`, pins the split to the final element. -/
theorem eq_append_output (mEvs : List LogEvent) (x : LogEvent) :
    ∀ (l r : List LogEvent) (d : List Nat),
      (∀ d', LogEvent.Output d' ∉ mEvs) →
      mEvs ++ [x] = l ++ LogEvent.Output d :: r →
      l = mEvs ∧ x = LogEvent.Output d ∧ r = [] := by
  induction mEvs with
  | nil =>
    intro l r d _ h
    cases l with
    | nil =>
      simp only [List.nil_append] at h
      cases h
      exact ⟨rfl, rfl, rfl⟩
    | cons a l' =>
      simp only [List.nil_append, List.cons_append, List.cons.injEq] at h
      have h2 := h.2
      exfalso
      have hlen := congrArg List.length h2
      simp only [List.length_nil, List.length_append, List.length_cons] at hlen
      omega
  | cons m ms ih =>
    intro l r d hno h
    cases l with
    | nil =>
      simp only [List.nil_append, List.cons_append] at h
      cases h
      exact absurd (List.mem_cons_self _ _) (hno d)
    | cons a l' =>
      simp only [List.cons_append, List.cons.injEq] at h
      rcases h with ⟨rfl, h2⟩
      have hno' : ∀ d', LogEvent.Output d' ∉ ms := by
        intro d' hd'
        exact hno d' (List.mem_cons_of_mem _ hd')
      rcases ih l' r d hno' h2 with ⟨rfl, hx, hr⟩
      exact ⟨rfl, hx, hr⟩

/-- An `Output` event of one `process_output` call carries exactly that
call's display bytes, and is emitted only when a command is open at the end
of the call. -/
theorem processOutput_output_chars (now : Nat) (pc : List Nat) (s : DState)
    (data : List Nat) (d : List Nat)
    (h : LogEvent.Output d ∈ (processOutput now pc s data).2.2) :
    d = (processOutput now pc s data).2.1 ∧
    (processOutput now pc s data).1.in_command = true := by
  have hno := scan_no_output now pc { s with partialMarker := none }
    ((s.partialMarker.getD []) ++ data)
  unfold processOutput at h ⊢
  dsimp only at h ⊢
  split at h
  · next hcond =>
    rw [List.mem_append] at h
    rcases h with h | h
    · exact absurd h (hno d)
    · simp only [List.mem_singleton] at h
      cases h
      exact ⟨rfl, hcond.1⟩
  · exact absurd h (hno d)

/-- If one call's events split at an `Output`, the events before it leave a
command open (relative to the in-command state at the start of the call). -/
theorem processOutput_split_open (now : Nat) (pc : List Nat) (s : DState)
    (data : List Nat) (l r : List LogEvent) (d : List Nat)
    (h : (processOutput now pc s data).2.2 = l ++ LogEvent.Output d :: r) :
    evOpen s.in_command l = true := by
  have hno := scan_no_output now pc { s with partialMarker := none }
    ((s.partialMarker.getD []) ++ data)
  have hop := scan_evOpen now pc { s with partialMarker := none }
    ((s.partialMarker.getD []) ++ data)
  unfold processOutput at h
  dsimp only at h
  split at h
  · next hcond =>
    rcases eq_append_output _ _ l r d (fun d' => hno d') h with ⟨rfl, _, _⟩
    rw [hop]
    exact hcond.1
  · exact absurd (h ▸ List.mem_append_right l (List.mem_cons_self _ _)) (hno d)

/-- Cumulative events of a chunk sequence: every `Output` event occurs while
a command is open in the event order. -/
theorem runChunks_split_open (now : Nat) (pc : List Nat) :
    ∀ (chunks : List (List Nat)) (s : DState) (l r : List LogEvent) (d : List Nat),
      (runChunks now pc s chunks).2.2 = l ++ LogEvent.Output d :: r →
      evOpen s.in_command l = true := by
  intro chunks
  induction chunks with
  | nil =>
    intro s l r d h
    exfalso
    have hlen := congrArg List.length h
    simp only [runChunks, List.length_nil, List.length_append, List.length_cons] at hlen
    omega
  | cons c cs ih =>
    intro s l r d h
    simp only [runChunks] at h
    rcases List.append_eq_append_iff.mp h with ⟨l2, hl, he2⟩ | ⟨r1, he1, hr⟩
    · subst hl
      rw [evOpen_append, processOutput_evOpen]
      exact ih (processOutput now pc s c).1 l2 r d he2
    · cases r1 with
      | nil =>
        simp only [List.append_nil] at he1
        subst he1
        have h2 : (runChunks now pc (processOutput now pc s c).1 cs).2.2 =
            [] ++ LogEvent.Output d :: r := by
          simpa using hr.symm
        have h3 := ih (processOutput now pc s c).1 [] r d h2
        rw [processOutput_evOpen]
        simpa [evOpen] using h3
      | cons x r1' =>
        simp only [List.cons_append, List.cons.injEq] at hr
        rcases hr with ⟨hx, _⟩
        subst hx
        exact processOutput_split_open now pc s c l r1' d he1

/-- Erasing the flags from the trace gives exactly the display bytes. -/
theorem scanTrace_fst (now : Nat) (pc : List Nat) :
    ∀ (fuel : Nat) (s : DState) (buf : List Nat), buf.length ≤ fuel →
      (scanTrace now pc fuel s buf).map Prod.fst = (scan now pc s buf).2.1 := by
  intro fuel
  induction fuel with
  | zero =>
    intro s buf h
    have hl : buf = [] := List.eq_nil_of_length_eq_zero (Nat.le_zero.mp h)
    subst hl
    rw [scan_nil]
    rfl
  | succ fuel ih =>
    intro s buf h
    cases buf with
    | nil => rw [scan_nil]; rfl
    | cons b rest =>
      by_cases hb : b = 30
      · subst hb
        cases hsp : splitTerm rest with
        | none =>
          rw [scan_stash now pc s rest hsp]
          simp [scanTrace, hsp]
        | some pr =>
          cases pr with
          | mk payload rest' =>
            have hr' : rest'.length ≤ fuel := by
              have := splitTerm_some_length hsp
              simp only [List.length_cons] at h
              omega
            rw [scan_marker now pc s rest payload rest' hsp]
            simp only [scanTrace, hsp, if_true, ite_true]
            rw [utf8DecodeFuel_spec payload.length payload (le_refl _)]
            rw [ih _ rest' hr']
      · by_cases hsk : s.in_command = true ∧ s.skip_until_eol = true
        · by_cases hstop : b = 10 ∨ b = 13 ∨
            (match s.skip_started_at with
             | some t => decide (50 ≤ now - t)
             | none => false) = true
          · rw [scan_skip_stop now pc s b rest hb hsk hstop]
            simp only [scanTrace]
            rw [if_neg hb, if_pos hsk, if_pos hstop]
            simp only [List.map_cons]
            rw [ih _ rest (Nat.le_of_succ_le_succ h)]
          · rw [scan_skip_drop now pc s b rest hb hsk hstop]
            simp only [scanTrace]
            rw [if_neg hb, if_pos hsk, if_neg hstop]
            exact ih _ rest (Nat.le_of_succ_le_succ h)
        · rw [scan_pass now pc s b rest hb hsk]
          simp only [scanTrace]
          rw [if_neg hb, if_neg hsk]
          simp only [List.map_cons]
          rw [ih _ rest (Nat.le_of_succ_le_succ h)]

/-- Claim C6 (counterexample): on input `"x\x1eRECLI_START:ls\n"` from the
initial state, the call emits `Output [0x78]`, yet the trace shows the byte
`0x78` was pushed while `in_command` was false (it precedes the START marker
in the same chunk): the bytes carried by `Output` events are the whole
call's display buffer, not only bytes processed during a command. -/
theorem recli_c6_counterexample :
    LogEvent.Output [120] ∈
      (processOutput 0 (strBytes "/cwd0") DState.init
        (strBytes "x\x1eRECLI_START:ls\n")).2.2
  ∧ scanTrace 0 (strBytes "/cwd0") (strBytes "x\x1eRECLI_START:ls\n").length
      DState.init (strBytes "x\x1eRECLI_START:ls\n") = [(120, false)] := by
  refine ⟨?_, by decide⟩
  simp only [processOutput_eval]
  decide

/-- Claim C6 (amended): each `Output` event carries exactly the display
bytes of its call and is emitted only when a command is open at the call's
end (so its bytes may include bytes processed while idle earlier in the same
chunk); and in the cumulative event order of any run from the initial state,
every `Output` event occurs strictly between a `CommandStart` and the next
`CommandEnd`. -/
theorem recli_c6_output_attribution :
    (∀ (now : Nat) (pc : List Nat) (s : DState) (data d : List Nat),
      LogEvent.Output d ∈ (processOutput now pc s data).2.2 →
      d = (processOutput now pc s data).2.1 ∧
      (processOutput now pc s data).1.in_command = true)
  ∧ (∀ (now : Nat) (pc : List Nat) (chunks : List (List Nat))
      (l r : List LogEvent) (d : List Nat),
      (runChunks now pc DState.init chunks).2.2 = l ++ LogEvent.Output d :: r →
      evOpen false l = true) := by
  constructor
  · intro now pc s data d h
    exact processOutput_output_chars now pc s data d h
  · intro now pc chunks l r d h
    exact runChunks_split_open now pc chunks DState.init l r d h

/-- Claim C6 (witness). -/
theorem recli_c6_witness :
    (([120] : List Nat) =
      (processOutput 0 (strBytes "/cwd0") DState.init
        (strBytes "x\x1eRECLI_START:ls\n")).2.1
    ∧ (processOutput 0 (strBytes "/cwd0") DState.init
        (strBytes "x\x1eRECLI_START:ls\n")).1.in_command = true)
  ∧ evOpen false [LogEvent.CommandStart (strBytes "ls") (strBytes "/cwd0")] = true :=
  ⟨recli_c6_output_attribution.1 0 (strBytes "/cwd0") DState.init
      (strBytes "x\x1eRECLI_START:ls\n") [120]
      (by simp only [processOutput_eval]; decide),
   recli_c6_output_attribution.2 0 (strBytes "/cwd0")
      [strBytes "x\x1eRECLI_START:ls\n"]
      [LogEvent.CommandStart (strBytes "ls") (strBytes "/cwd0")] [] [120]
      (by simp only [runChunks, processOutput_eval]; decide)⟩

/-! ## Marker-history observations for the finalize precondition (C2) -/

theorem stripTag_eq_append : ∀ (t s r : List Nat), stripTag t s = some r → s = t ++ r := by
  intro t
  induction t with
  | nil =>
    intro s r h
    simp only [stripTag] at h
    cases h
    rfl
  | cons c cs ih =>
    intro s r h
    cases s with
    | nil => simp [stripTag] at h
    | cons b bs =>
      simp only [stripTag] at h
      split at h
      · next hbc =>
        have hcb : c = b := by simpa using hbc
        subst hcb
        rw [ih bs r h]
        rfl
      · cases h

theorem specExitAcc_cons (e0 : Option Int) (m : List Nat) (l : List (List Nat)) :
    specExitAcc e0 (m :: l) =
      specExitAcc
        (match stripTag endTag m with
         | some r => parseI32 (trimChars r)
         | none => e0) l := rfl

theorem specPwdAcc_cons (p0 : Option (List Nat)) (m : List Nat) (l : List (List Nat)) :
    specPwdAcc p0 (m :: l) =
      specPwdAcc
        (match stripTag pwdTag m with
         | some r => some r
         | none => p0) l := rfl

theorem handleMarker_end (now : Nat) (pc : List Nat) (s : DState) (rE : List Nat) :
    handleMarker now pc s (endTag ++ rE) =
      tryFinishWhenReady { s with pending_exit_code := parseI32 (trimChars rE) } := by
  unfold handleMarker
  rw [show stripTag startTag (endTag ++ rE) = none from rfl]
  rw [show stripTag endTag (endTag ++ rE) = some rE from rfl]

theorem handleMarker_pwd (now : Nat) (pc : List Nat) (s : DState) (rP : List Nat) :
    handleMarker now pc s (pwdTag ++ rP) =
      tryFinishWhenReady { s with pending_pwd := some rP, last_pwd := some rP } := by
  unfold handleMarker
  rw [show stripTag startTag (pwdTag ++ rP) = none from rfl]
  rw [show stripTag endTag (pwdTag ++ rP) = none from rfl]
  rw [show stripTag pwdTag (pwdTag ++ rP) = some rP from rfl]

theorem handleMarker_pipe (now : Nat) (pc : List Nat) (s : DState) (rI : List Nat) :
    handleMarker now pc s (pipeTag ++ rI) =
      (match stripBracket (trimChars rI) with
       | some inner =>
         if parsePipeList inner ≠ [] then
           tryFinishWhenReady { s with pending_pipestatus := some (parsePipeList inner) }
         else (s, [])
       | none => (s, [])) := by
  unfold handleMarker
  rw [show stripTag startTag (pipeTag ++ rI) = none from rfl]
  rw [show stripTag endTag (pipeTag ++ rI) = none from rfl]
  rw [show stripTag pwdTag (pipeTag ++ rI) = none from rfl]
  rw [show stripTag pipeTag (pipeTag ++ rI) = some rI from rfl]

theorem handleMarker_unknown (now : Nat) (pc : List Nat) (s : DState) (m : List Nat)
    (h1 : stripTag startTag m = none) (h2 : stripTag endTag m = none)
    (h3 : stripTag pwdTag m = none) (h4 : stripTag pipeTag m = none) :
    handleMarker now pc s m = (s, []) := by
  unfold handleMarker
  rw [h1, h2, h3, h4]

theorem tryFinish_fire (s : DState) (ec : Int) (pw : List Nat)
    (hic : s.in_command = true) (he : s.pending_exit_code = some ec)
    (hp : s.pending_pwd = some pw) :
    tryFinishWhenReady s =
      ({ s with in_command := false, pending_exit_code := none,
                pending_pipestatus := none, pending_pwd := none },
       [LogEvent.CommandEnd ec s.pending_pipestatus pw]) := by
  unfold tryFinishWhenReady
  rw [if_pos hic, he, hp]

theorem tryFinish_skip (s : DState)
    (h : ¬(s.pending_exit_code.isSome = true ∧ s.pending_pwd.isSome = true)) :
    tryFinishWhenReady s = (s, []) := by
  unfold tryFinishWhenReady
  split
  · cases he : s.pending_exit_code with
    | none => cases hp : s.pending_pwd <;> rfl
    | some ec =>
      cases hp : s.pending_pwd with
      | none => rfl
      | some pw => exact absurd ⟨by rw [he]; rfl, by rw [hp]; rfl⟩ h
  · rfl

theorem specExitAcc_cons' (e0 : Option Int) (m : List Nat) (l : List (List Nat)) :
    specExitAcc e0 (m :: l) = specExitAcc (specExitAcc e0 [m]) l := rfl

theorem specPwdAcc_cons' (p0 : Option (List Nat)) (m : List Nat) (l : List (List Nat)) :
    specPwdAcc p0 (m :: l) = specPwdAcc (specPwdAcc p0 [m]) l := rfl

theorem exists_take_shift (e0 e1 : Option Int) (p0 p1 : Option (List Nat))
    (m : List Nat) (rest : List (List Nat))
    (hcon : ¬(e0.isSome = true ∧ p0.isSome = true))
    (hE : specExitAcc e0 [m] = e1) (hP : specPwdAcc p0 [m] = p1) :
    (∃ k, k ≤ (m :: rest).length ∧
       (specExitAcc e0 ((m :: rest).take k)).isSome = true ∧
       (specPwdAcc p0 ((m :: rest).take k)).isSome = true) ↔
    (∃ k, k ≤ rest.length ∧
       (specExitAcc e1 (rest.take k)).isSome = true ∧
       (specPwdAcc p1 (rest.take k)).isSome = true) := by
  subst hE
  subst hP
  constructor
  · rintro ⟨k, hk, he, hp⟩
    cases k with
    | zero => exact absurd ⟨he, hp⟩ hcon
    | succ k' =>
      refine ⟨k', ?_, ?_, ?_⟩
      · simp only [List.length_cons] at hk
        omega
      · rw [List.take_succ_cons, specExitAcc_cons'] at he
        exact he
      · rw [List.take_succ_cons, specPwdAcc_cons'] at hp
        exact hp
  · rintro ⟨k', hk', he, hp⟩
    refine ⟨k' + 1, ?_, ?_, ?_⟩
    · simp only [List.length_cons]
      omega
    · rw [List.take_succ_cons, specExitAcc_cons']
      exact he
    · rw [List.take_succ_cons, specPwdAcc_cons']
      exact hp

theorem c2_main :
    ∀ (ms : List (List Nat)) (now : Nat) (pc : List Nat) (s : DState),
      (∀ m ∈ ms, stripTag startTag m = none) →
      s.in_command = true →
      ¬(s.pending_exit_code.isSome = true ∧ s.pending_pwd.isSome = true) →
      ((∃ ec pp w, LogEvent.CommandEnd ec pp w ∈ (runMarkers now pc s ms).2) ↔
       (∃ k, k ≤ ms.length ∧
         (specExitAcc s.pending_exit_code (ms.take k)).isSome = true ∧
         (specPwdAcc s.pending_pwd (ms.take k)).isSome = true)) := by
  intro ms
  induction ms with
  | nil =>
    intro now pc s hst hic hcon
    constructor
    · rintro ⟨ec, pp, w, hmem⟩
      simp [runMarkers] at hmem
    · rintro ⟨k, hk, he, hp⟩
      have hk0 : k = 0 := Nat.le_zero.mp hk
      subst hk0
      exact absurd ⟨he, hp⟩ hcon
  | cons m rest ih =>
    intro now pc s hst hic hcon
    have hst' : ∀ m' ∈ rest, stripTag startTag m' = none :=
      fun m' hm' => hst m' (List.mem_cons_of_mem _ hm')
    have hm_start : stripTag startTag m = none := hst m (List.mem_cons_self _ _)
    simp only [runMarkers]
    cases hend : stripTag endTag m with
    | some rE =>
      obtain rfl : m = endTag ++ rE := stripTag_eq_append _ _ _ hend
      rw [handleMarker_end]
      by_cases hfire : (parseI32 (trimChars rE)).isSome = true ∧ s.pending_pwd.isSome = true
      · obtain ⟨ec, hec⟩ := Option.isSome_iff_exists.mp hfire.1
        obtain ⟨pw, hpw⟩ := Option.isSome_iff_exists.mp hfire.2
        rw [tryFinish_fire { s with pending_exit_code := parseI32 (trimChars rE) } ec pw hic hec hpw]
        have h1 : specExitAcc s.pending_exit_code (((endTag ++ rE) :: rest).take 1) =
            parseI32 (trimChars rE) := rfl
        have h2 : specPwdAcc s.pending_pwd (((endTag ++ rE) :: rest).take 1) =
            s.pending_pwd := rfl
        refine iff_of_true ⟨ec, s.pending_pipestatus, pw, ?_⟩
          ⟨1, by simp, by rw [h1, hec]; rfl, by rw [h2, hpw]; rfl⟩
        exact List.mem_append_left _ (List.mem_cons_self _ _)
      · rw [tryFinish_skip { s with pending_exit_code := parseI32 (trimChars rE) } hfire]
        have hiff := ih now pc { s with pending_exit_code := parseI32 (trimChars rE) }
          hst' hic hfire
        simp only [List.nil_append]
        rw [hiff]
        exact (exists_take_shift s.pending_exit_code _ s.pending_pwd _
          (endTag ++ rE) rest hcon rfl rfl).symm
    | none =>
      cases hpwd : stripTag pwdTag m with
      | some rP =>
        obtain rfl : m = pwdTag ++ rP := stripTag_eq_append _ _ _ hpwd
        rw [handleMarker_pwd]
        by_cases hfire : s.pending_exit_code.isSome = true
        · obtain ⟨ec, hec⟩ := Option.isSome_iff_exists.mp hfire
          rw [tryFinish_fire { s with pending_pwd := some rP, last_pwd := some rP } ec rP hic hec rfl]
          have h1 : specExitAcc s.pending_exit_code (((pwdTag ++ rP) :: rest).take 1) =
              s.pending_exit_code := rfl
          have h2 : specPwdAcc s.pending_pwd (((pwdTag ++ rP) :: rest).take 1) =
              some rP := rfl
          refine iff_of_true ⟨ec, s.pending_pipestatus, rP, ?_⟩
            ⟨1, by simp, by rw [h1, hec]; rfl, by rw [h2]; rfl⟩
          exact List.mem_append_left _ (List.mem_cons_self _ _)
        · rw [tryFinish_skip { s with pending_pwd := some rP, last_pwd := some rP } (fun hc => hfire hc.1)]
          have hiff := ih now pc { s with pending_pwd := some rP, last_pwd := some rP }
            hst' hic (fun hc => hfire hc.1)
          simp only [List.nil_append]
          rw [hiff]
          exact (exists_take_shift s.pending_exit_code _ s.pending_pwd _
            (pwdTag ++ rP) rest hcon rfl rfl).symm
      | none =>
        cases hpipe : stripTag pipeTag m with
        | some rI =>
          obtain rfl : m = pipeTag ++ rI := stripTag_eq_append _ _ _ hpipe
          rw [handleMarker_pipe]
          have hshift := (exists_take_shift s.pending_exit_code s.pending_exit_code
            s.pending_pwd s.pending_pwd (pipeTag ++ rI) rest hcon rfl rfl).symm
          cases hbr : stripBracket (trimChars rI) with
          | some inner =>
            dsimp only
            by_cases hv : parsePipeList inner = []
            · rw [if_neg (by simpa using hv)]
              have hiff := ih now pc s hst' hic hcon
              simp only [List.nil_append]
              rw [hiff]
              exact hshift
            · rw [if_pos hv]
              rw [tryFinish_skip { s with pending_pipestatus := some (parsePipeList inner) } hcon]
              have hiff := ih now pc
                { s with pending_pipestatus := some (parsePipeList inner) }
                hst' hic hcon
              simp only [List.nil_append]
              rw [hiff]
              exact hshift
          | none =>
            dsimp only
            have hiff := ih now pc s hst' hic hcon
            simp only [List.nil_append]
            rw [hiff]
            exact hshift
        | none =>
          rw [handleMarker_unknown now pc s m hm_start hend hpwd hpipe]
          have hE : specExitAcc s.pending_exit_code [m] = s.pending_exit_code := by
            simp [specExitAcc, hend]
          have hP : specPwdAcc s.pending_pwd [m] = s.pending_pwd := by
            simp [specPwdAcc, hpwd]
          have hiff := ih now pc s hst' hic hcon
          simp only [List.nil_append]
          rw [hiff]
          exact (exists_take_shift s.pending_exit_code _ s.pending_pwd _
            m rest hcon hE hP).symm

/-- Claim C2 (counterexample): after `RECLI_START:ls` then `RECLI_PWD:/x`,
the marker `RECLI_END:0` — which has no subsequent `RECLI_PWD` — finalizes
immediately, emitting the `CommandEnd`; "END without a later PWD never
finalizes" is false when a PWD was already pending. -/
theorem recli_c2_counterexample :
    (runMarkers 0 [] DState.init
      [strBytes "RECLI_START:ls", strBytes "RECLI_PWD:/x", strBytes "RECLI_END:0"]).2 =
    [LogEvent.CommandStart (strBytes "ls") [],
     LogEvent.CommandEnd 0 none (strBytes "/x")] := by
  decide

/-- Claim C2 (amended): after a `RECLI_START` (which clears the pending
fields), a non-synthesized `CommandEnd` is emitted during a START-free marker
segment iff at some point both the most recent `RECLI_END` of the segment
parses as an exit code (a later unparsable END clears the pending code) and
some `RECLI_PWD` has been seen in the segment — in either order; `RECLI_PIPE`
is not consulted. -/
theorem recli_c2_finalize (now : Nat) (pc : List Nat) (s : DState)
    (cmd : List Nat) (seg : List (List Nat))
    (hseg : ∀ m ∈ seg, stripTag startTag m = none) :
    (∃ ec pp w, LogEvent.CommandEnd ec pp w ∈
        (runMarkers now pc (startCommand now pc s cmd).1 seg).2) ↔
    (∃ k, k ≤ seg.length ∧ (specExitAcc none (seg.take k)).isSome = true ∧
      (specPwdAcc none (seg.take k)).isSome = true) := by
  have h := c2_main seg now pc (startCommand now pc s cmd).1 hseg
    (by simp [startCommand]) (by simp [startCommand])
  have he : (startCommand now pc s cmd).1.pending_exit_code = none := by
    simp [startCommand]
  have hp : (startCommand now pc s cmd).1.pending_pwd = none := by
    simp [startCommand]
  rw [he, hp] at h
  exact h

/-- Claim C2 (witness): END then PWD after a START — the `CommandEnd` exists
iff the history shows both, here at k = 2. -/
theorem recli_c2_witness :
    (∃ ec pp w, LogEvent.CommandEnd ec pp w ∈
        (runMarkers 0 [] (startCommand 0 [] DState.init (strBytes "ls")).1
          [strBytes "RECLI_END:0", strBytes "RECLI_PWD:/x"]).2) ↔
    (∃ k, k ≤ 2 ∧
      (specExitAcc none ([strBytes "RECLI_END:0", strBytes "RECLI_PWD:/x"].take k)).isSome = true ∧
      (specPwdAcc none ([strBytes "RECLI_END:0", strBytes "RECLI_PWD:/x"].take k)).isSome = true) :=
  recli_c2_finalize 0 [] DState.init (strBytes "ls")
    [strBytes "RECLI_END:0", strBytes "RECLI_PWD:/x"] (by decide)

/-! ## Preview cap (C7) -/

theorem utf8Len_append (a b : List Nat) :
    utf8Len (a ++ b) = utf8Len a + utf8Len b := by
  simp [utf8Len]

theorem scalarLen_le_four (c : Nat) : scalarLen c ≤ 4 := by
  unfold scalarLen
  repeat' split
  all_goals omega

theorem utf8Step_bound (b : Nat) (rest : List Nat) :
    scalarLen (utf8Step b rest).1 + 3 * (utf8Step b rest).2.length ≤
      3 * rest.length + 3 := by
  unfold utf8Step
  repeat' split
  all_goals dsimp only [replChar]
  all_goals unfold scalarLen
  all_goals repeat' split
  all_goals try simp only [List.length_cons, List.length_nil]
  all_goals omega

/-- Lossy decoding expands the byte length at most threefold (one U+FFFD of
three bytes per consumed byte in the worst case). -/
theorem utf8Len_decode_le (bs : List Nat) :
    utf8Len (utf8DecodeLossy bs) ≤ 3 * bs.length := by
  induction bs using utf8DecodeLossy.induct with
  | case1 =>
    rw [utf8DecodeLossy]
    simp [utf8Len]
  | case2 b rest ih =>
    rw [utf8DecodeLossy]
    simp only [utf8Len, List.map_cons, List.sum_cons, List.length_cons]
    have hb := utf8Step_bound b rest
    simp only [utf8Len] at ih
    omega

theorem appendOutputBytes_inv (l : CommandLog) (bs : List Nat)
    (h : previewInv l) : previewInv (l.appendOutputBytes bs) := by
  obtain ⟨h1, h2⟩ := h
  unfold CommandLog.appendOutputBytes
  have hl1 : ∀ l1 : CommandLog, l1.current_preview = l.current_preview →
      l1.entries = l.entries →
      previewInv (if utf8Len l1.current_preview < 8 * 1024 then
        { l1 with current_preview := l1.current_preview ++
            utf8DecodeLossy (bs.take (min bs.length (8 * 1024 - utf8Len l1.current_preview))) }
      else l1) := by
    intro l1 hp he
    split
    · next hlt =>
      constructor
      · simp only [utf8Len_append]
        have hd := utf8Len_decode_le
          (bs.take (min bs.length (8 * 1024 - utf8Len l1.current_preview)))
        have hlen : (bs.take (min bs.length (8 * 1024 - utf8Len l1.current_preview))).length ≤
            8 * 1024 - utf8Len l1.current_preview := by
          simp only [List.length_take]
          omega
        rw [hp] at hlt ⊢
        rw [hp] at hd hlen
        omega
      · simpa [he] using h2
    · exact ⟨by rw [hp]; exact h1, by simpa [he] using h2⟩
  cases hf : l.current_out_file with
  | none => exact hl1 l rfl rfl
  | some pf => exact hl1 { l with current_out_file := some (pf.1, pf.2 ++ bs) } rfl rfl

theorem startCommand_inv (l : CommandLog) (cmd cwd dir : List Nat) (now : Nat)
    (h : previewInv l) : previewInv (l.startCommand cmd cwd dir now) := by
  obtain ⟨_, h2⟩ := h
  exact ⟨by simp [CommandLog.startCommand, utf8Len], by simpa [CommandLog.startCommand] using h2⟩

theorem finishCommand_inv (l : CommandLog) (ec : Int) (ps : Option (List Int))
    (cwd dir ts : List Nat) (now : Nat) (h : previewInv l) :
    previewInv (l.finishCommand ec ps cwd dir ts now) := by
  obtain ⟨h1, h2⟩ := h
  unfold CommandLog.finishCommand
  split
  · exact ⟨h1, h2⟩
  · constructor
    · simp [utf8Len]
    · intro e he
      simp only [List.mem_append, List.mem_singleton] at he
      rcases he with he | rfl
      · exact h2 e he
      · exact h1

theorem runLogOps_inv :
    ∀ (ops : List LogOp) (l : CommandLog), previewInv l → previewInv (runLogOps l ops) := by
  intro ops
  induction ops with
  | nil => intro l h; exact h
  | cons op rest ih =>
    intro l h
    cases op with
    | start cmd cwd dir now => exact ih _ (startCommand_inv l cmd cwd dir now h)
    | append bs => exact ih _ (appendOutputBytes_inv l bs h)
    | finish ec ps cwd dir ts now => exact ih _ (finishCommand_inv l ec ps cwd dir ts now h)

theorem utf8Step_255 (rest : List Nat) : utf8Step 255 rest = (replChar, rest) := rfl

theorem utf8Len_replicate (n c : Nat) :
    utf8Len (List.replicate n c) = n * scalarLen c := by
  induction n with
  | zero => simp [utf8Len]
  | succ n ih =>
    rw [List.replicate_succ]
    simp only [utf8Len, List.map_cons, List.sum_cons] at ih ⊢
    rw [ih]
    ring

theorem decode_replicate_255 (n : Nat) :
    utf8DecodeLossy (List.replicate n 255) = List.replicate n replChar := by
  induction n with
  | zero =>
    rw [List.replicate_zero, utf8DecodeLossy]
    rfl
  | succ n ih =>
    rw [List.replicate_succ, utf8DecodeLossy]
    rw [utf8Step_255]
    rw [ih, ← List.replicate_succ]

theorem appendOutputBytes_fresh (bytes : List Nat) :
    (CommandLog.new.appendOutputBytes bytes).current_preview =
      utf8DecodeLossy (bytes.take (min bytes.length (8 * 1024))) := by
  unfold CommandLog.appendOutputBytes CommandLog.new
  simp [utf8Len]

/-- Claim C7 (counterexample): one `append_output_bytes` call of 2731 invalid
bytes (`0xFF`) on a fresh log makes the preview 8193 bytes long — each
invalid byte becomes the three-byte U+FFFD under lossy decoding, and the cap
check only bounds how many raw bytes are taken, not the decoded size. -/
theorem recli_c7_counterexample :
    8192 < utf8Len ((CommandLog.new.appendOutputBytes
      (List.replicate 2731 255)).current_preview) := by
  rw [appendOutputBytes_fresh, List.length_replicate]
  have h1 : min 2731 (8 * 1024) = 2731 := by decide
  rw [h1, List.take_replicate]
  have h2 : min 2731 2731 = 2731 := by decide
  rw [h2, decode_replicate_255, utf8Len_replicate]
  have hr : scalarLen replChar = 3 := by decide
  rw [hr]
  decide

/-- Claim C7 (amended): for every sequence of `start_command` /
`append_output_bytes` / `finish_command` calls on a fresh log, the in-memory
preview and every finalized entry's `output_preview` stay at or below
24576 bytes (3 × 8 KiB): appends happen only while the preview is under 8192
bytes and the appended snippet is at most three bytes per raw byte taken, so
the 8 KiB bound of the claim can be exceeded by lossy expansion but never
tripled. -/
theorem recli_c7_preview_cap (ops : List LogOp) :
    utf8Len (runLogOps CommandLog.new ops).current_preview ≤ 24576 ∧
    ∀ e ∈ (runLogOps CommandLog.new ops).entries,
      utf8Len e.output_preview ≤ 24576 :=
  runLogOps_inv ops CommandLog.new
    ⟨by simp [CommandLog.new, utf8Len], by simp [CommandLog.new]⟩

/-- Claim C7 (witness): the entry produced by a start/finish run is within
the corrected bound. -/
theorem recli_c7_witness :
    utf8Len (((runLogOps CommandLog.new
      [LogOp.start [99] [] [] 0, LogOp.finish 0 none [] [] [116] 0]).entries.head
      (by simp [runLogOps, CommandLog.startCommand,
        CommandLog.finishCommand])).output_preview) ≤ 24576 :=
  (recli_c7_preview_cap
      [LogOp.start [99] [] [] 0, LogOp.finish 0 none [] [] [116] 0]).2 _
    (List.head_mem _)
